import Mathlib

/-!
# Verification of the scira semantic cache core

Shallow embedding of `lib/cache/core/cache-manager.ts`,
`lib/cache/core/cache-strategies.ts` and
`lib/cache/semantic/similarity-matcher.ts`.

Modelling conventions:
* The Upstash Redis keyspace is one association list `String ↦ RVal`:
  cache entries (written by `setex` as JSON), the semantic-index hash
  records (`hset`), and the master index set (`sadd`) all live in it, as
  they do in Redis.  The store's own TTL reaping runs on the Redis server
  clock and is not modelled: records persist until deleted, which is the
  situation the manager's own `isExpired` check exists to handle.
* Wrong-type accesses (e.g. `get` on a set key) are treated as a miss; no
  state built by the modelled operations performs one.
* Embedding vectors and similarity scores are real numbers (the
  idealisation of JS floats); the embedding provider is an environment
  function `String → Option (List ℝ)`, `none` modelling provider failure.
* The Redis-Stack `FT.SEARCH` native vector path is not available in the
  modelled environment (the repository targets plain Upstash Redis, and
  `initializeVectorIndex` falls through to "manual similarity search"),
  so `findSimilarQueries` always takes its documented fallback branch.
* `sha256`/`md5` digests are an environment function `hashFn`.
* Strategy `onHit`/`onMiss` callbacks are pure observers (console logging
  in every strategy the repository ships) and have no modelled effect.
* Each operation receives the values `Date.now()` returns during it as
  explicit `Nat` arguments (milliseconds).
-/

namespace SciraCache

/-- Model of `CacheStrategy.type` (types/index.ts). -/
inductive SType where
  | semantic
  | exact
  | geoTemporal
  | financial
  | userSpecific
  deriving DecidableEq, Repr

/-- Model of `CacheStrategy` (types/index.ts): the fields the core reads.
`compressionEnabled` and `maxSize` are never read by the manager and are
omitted.  `onHit`/`onMiss` are pure observers (see module docstring). -/
structure Strategy (V : Type) where
  name : String
  type : SType
  defaultTTL : Nat
  semanticThreshold : Option ℝ := none
  customKeyGenerator : Option (String → String) := none
  shouldCache : Option (String → V → Bool) := none

/-- Model of `QueryFingerprint` (types/index.ts). -/
structure Fingerprint where
  hash : String
  embedding : Option (List ℝ) := none
  originalQuery : String
  normalizedQuery : String
  queryType : SType

/-- Model of `CacheEntry` (types/index.ts); `metadata` is never read by the core. -/
structure Entry (V : Type) where
  data : V
  timestamp : Nat
  ttl : Nat
  fingerprint : Fingerprint
  strategy : String

/-- The denormalised record `indexEntry` builds and stores in the semantic
index (`indexData` in similarity-matcher.ts). -/
structure IdxData where
  hash : String
  embedding : List ℝ
  originalQuery : String
  timestamp : Nat
  ttl : Nat
  strategy : String

/-- A value in the Redis keyspace: a serialized cache entry (`setex`),
an index hash record (`hset` at `{indexName}:{hash}`), a vector record
(`hset` at `{indexName}:vectors:{hash}`), or a set (`sadd`). -/
inductive RVal (V : Type) where
  | entry (e : Entry V)
  | idxRec (d : IdxData)
  | vecRec (vector : List ℝ) (metadata : IdxData)
  | sset (members : List String)

/-- Model of `CacheEventType` (types/index.ts). -/
inductive EvType where
  | hit
  | miss
  | set
  | delete
  | evict
  | error
  deriving DecidableEq, Repr

/-- Model of `CacheEvent`; the `metadata` payload is not modelled. -/
structure Event where
  type : EvType
  key : String
  time : Nat
  deriving DecidableEq, Repr

/-- The `code` field of the `CacheError` hierarchy (types/index.ts), plus
the anonymous JS exceptions the matcher can raise internally. -/
inductive CErr where
  | strategyError
  | getError
  | setError
  | deleteError
  | clearError
  | semanticError
  | vectorSearchError
  | lengthError
  | typeError
  deriving DecidableEq, Repr

/-- Model of `CacheStats` (types/index.ts). -/
structure Stats where
  hits : Nat
  misses : Nat
  hitRate : ℚ
  totalRequests : Nat
  averageLatency : ℚ
  storageSize : Nat
  evictions : Nat
  lastUpdated : Nat
  deriving DecidableEq, Repr

/-- Model of `CacheOptions` (types/index.ts); `forceRefresh` and `metadata` are
never read by the manager. -/
structure Opts where
  strategy : Option String := none
  ttl : Option Nat := none
  enableSemantic : Option Bool := none
  semanticThreshold : Option ℝ := none

/-- Per-call environment: the external collaborators.
`embedder` is the OpenAI embedding provider (`none` = provider failure,
which `generateEmbedding` surfaces as a `SemanticCacheError`);
`indexWriteFails` injects a Redis failure into the first index write of
`indexEntry`; `batchHash` is the md5 digest `generateBatchId` computes. -/
structure Env where
  embedder : String → Option (List ℝ)
  indexWriteFails : Bool := false
  batchHash : List String → String := fun _ => ""

/-- Manager configuration: the digest function, the strategy registry
after `initializeStrategies` (defaults overridden by config entries, so a
plain list searched by name), and `config.defaultStrategy`. -/
structure Config (V : Type) where
  hashFn : String → String
  registry : List (Strategy V)
  defaultStrategy : String

/-- The manager's mutable state: the Redis keyspace, the stats aggregate,
and the `batchRequests` dedup map (modelled by its key set). -/
structure CState (V : Type) where
  kv : List (String × RVal V)
  stats : Stats
  batchRequests : List String

/-- Decidable equality for `Except` results (used only to state and
check concrete runs). -/
instance {ε α : Type} [DecidableEq ε] [DecidableEq α] :
    DecidableEq (Except ε α) := fun x y =>
  match x, y with
  | .ok a, .ok b =>
      if h : a = b then .isTrue (by rw [h])
      else .isFalse (fun hh => h (Except.ok.inj hh))
  | .error a, .error b =>
      if h : a = b then .isTrue (by rw [h])
      else .isFalse (fun hh => h (Except.error.inj hh))
  | .ok _, .error _ => .isFalse (fun hh => Except.noConfusion hh)
  | .error _, .ok _ => .isFalse (fun hh => Except.noConfusion hh)

/-! ## Redis keyspace primitives -/

variable {V : Type}

/-- Model of `redis.get` / `hgetall`: first binding of the key. -/
def kvGet : List (String × RVal V) → String → Option (RVal V)
  | [], _ => none
  | (k, v) :: rest, key => if k = key then some v else kvGet rest key

/-- Model of `redis.setex` / `hset`: replace in place, else append. -/
def kvSet : List (String × RVal V) → String → RVal V → List (String × RVal V)
  | [], key, v => [(key, v)]
  | (k, w) :: rest, key, v =>
      if k = key then (key, v) :: rest else (k, w) :: kvSet rest key v

/-- Model of `redis.del key`: the new keyspace and the number of records removed
(0 or 1; Redis keys are unique). -/
def kvDel (kv : List (String × RVal V)) (key : String) :
    List (String × RVal V) × Nat :=
  (kv.filter fun p => p.1 ≠ key, if (kvGet kv key).isSome then 1 else 0)

/-- Model of `redis.del k1 k2 ...` over a list of keys. -/
def kvDelMany : List (String × RVal V) → List String → List (String × RVal V) × Nat
  | kv, [] => (kv, 0)
  | kv, k :: ks =>
      let r := kvDel kv k
      let rest := kvDelMany r.1 ks
      (rest.1, r.2 + rest.2)

/-- Model of `redis.smembers`: members of a set key, `[]` when absent. -/
def smembersKV (kv : List (String × RVal V)) (key : String) : List String :=
  match kvGet kv key with
  | some (.sset ms) => ms
  | _ => []

/-- Model of `redis.sadd`: add a member, creating the set when absent. -/
def saddKV (kv : List (String × RVal V)) (key member : String) :
    List (String × RVal V) :=
  let ms := smembersKV kv key
  kvSet kv key (.sset (if ms.contains member then ms else ms ++ [member]))

/-- Model of `redis.srem`: remove a member when the set exists. -/
def sremKV (kv : List (String × RVal V)) (key member : String) :
    List (String × RVal V) :=
  match kvGet kv key with
  | some (.sset ms) => kvSet kv key (.sset (ms.filter (· ≠ member)))
  | _ => kv

/-- Redis glob match, literals and the `*` wildcard (the repertoire the
`clear(pattern)` paths exercise).  Fuel-based so the definition is
structural: each step consumes pattern or subject, so
`pattern.length + subject.length + 1` fuel always suffices. -/
def globCharsFuel : Nat → List Char → List Char → Bool
  | 0, _, _ => false
  | fuel + 1, pattern, s =>
    match pattern, s with
    | [], [] => true
    | pc :: ps, [] => pc = '*' && globCharsFuel fuel ps []
    | [], _ :: _ => false
    | pc :: ps, c :: cs =>
        if pc = '*' then
          globCharsFuel fuel ps (c :: cs) || globCharsFuel fuel (pc :: ps) cs
        else pc = c && globCharsFuel fuel ps cs

def globChars (pattern s : List Char) : Bool :=
  globCharsFuel (pattern.length + s.length + 1) pattern s

/-- Model of `redis.keys pattern`. -/
def kvKeys (kv : List (String × RVal V)) (pattern : String) : List String :=
  (kv.map Prod.fst).filter fun k => globChars pattern.toList k.toList

/-! ## Key normalization and JS falsy-default helpers -/

/-- One step of `.replace(/\s+/g, ' ')`: collapse every whitespace run to
a single space. -/
def collapseWs : List Char → List Char
  | [] => []
  | [c] => [if c.isWhitespace then ' ' else c]
  | c :: c2 :: cs =>
      if c.isWhitespace && c2.isWhitespace then collapseWs (c2 :: cs)
      else (if c.isWhitespace then ' ' else c) :: collapseWs (c2 :: cs)

/-- Model of `.trim()`: drop leading and trailing whitespace. -/
def trimChars (cs : List Char) : List Char :=
  ((cs.dropWhile Char.isWhitespace).reverse.dropWhile Char.isWhitespace).reverse

/-- Model of `CacheManager.normalizeKey`:
`key.toLowerCase().trim().replace(/\s+/g, ' ')` (character-level model;
`Char.toLower` covers the ASCII range the cache keys use). -/
def normalizeKey (key : String) : String :=
  String.mk (collapseWs (trimChars (key.toList.map Char.toLower)))

/-- JS `a || d` for an optional string (`undefined` and `""` are falsy),
as in `getStrategy`'s `strategyName || this.config.defaultStrategy`. -/
def jsOrStr (o : Option String) (d : String) : String :=
  match o with
  | some s => if s = "" then d else s
  | none => d

/-- JS `a || d` for an optional number (`undefined` and `0` are falsy),
as in `options.ttl || strategy.defaultTTL`. -/
def jsOrNat (o : Option Nat) (d : Nat) : Nat :=
  match o with
  | some n => if n = 0 then d else n
  | none => d

/-- JS `a || d` on an optional float, as in
`options.semanticThreshold || strategy.semanticThreshold || 0.85`. -/
noncomputable def jsOrR (o : Option ℝ) (d : ℝ) : ℝ :=
  match o with
  | some x => if x = 0 then d else x
  | none => d

/-! ## Similarity matcher (`similarity-matcher.ts`) -/

/-- Value of `SemanticMatcher.indexName`. -/
def indexName : String := "scira_cache_embeddings"

/-- The master index set key `{indexName}:keys`. -/
def keysSetKey : String := "scira_cache_embeddings:keys"

/-- Model of `SemanticSearchResult` (types/index.ts). -/
structure SResult (V : Type) where
  key : String
  similarity : ℝ
  distance : ℝ
  entry : Entry V

/-- Model of `SemanticMatcher.cosineSimilarity`: throws on a length mismatch, else
`dot(a,b) / (sqrt(normA) * sqrt(normB))`, returning `0` when the
magnitude product is zero. -/
noncomputable def cosineSimilarity (a b : List ℝ) : Except CErr ℝ :=
  if a.length ≠ b.length then .error .lengthError
  else
    let dotProduct := ((a.zip b).map fun p => p.1 * p.2).sum
    let normA := (a.map fun x => x * x).sum
    let normB := (b.map fun x => x * x).sum
    let magnitude := Real.sqrt normA * Real.sqrt normB
    .ok (if magnitude = 0 then 0 else dotProduct / magnitude)

/-- The call `this.cosineSimilarity(queryEmbedding, storedVector)` inside
the manual scan.  `queryEmbedding` arrives via the unchecked
`fingerprint.embedding!` in `CacheManager.get`, so it can be `undefined`;
reading `a.length` then throws a `TypeError`. -/
noncomputable def cosineSimilarityJS (a : Option (List ℝ)) (b : List ℝ) :
    Except CErr ℝ :=
  match a with
  | none => .error .typeError
  | some av => cosineSimilarity av b

/-- The `for (const key of keys)` loop of
`performManualSimilaritySearch`: for each indexed hash, read the vector
record, compute the similarity, and keep results at or above the
threshold whose cache entry can be fetched from the store under
`scira:cache:{metadata.strategy}:{key}`. -/
noncomputable def scanLoop (kv : List (String × RVal V)) (q : Option (List ℝ))
    (threshold : ℝ) : List String → Except CErr (List (SResult V))
  | [] => .ok []
  | k :: ks =>
    match kvGet kv (indexName ++ ":vectors:" ++ k) with
    | some (.vecRec storedVector metadata) =>
      match cosineSimilarityJS q storedVector with
      | .error e => .error e
      | .ok similarity =>
        if threshold ≤ similarity then
          match kvGet kv ("scira:cache:" ++ metadata.strategy ++ ":" ++ k) with
          | some (.entry e) =>
            match scanLoop kv q threshold ks with
            | .error err => .error err
            | .ok rest => .ok (⟨k, similarity, 1 - similarity, e⟩ :: rest)
          | _ => scanLoop kv q threshold ks
        else scanLoop kv q threshold ks
    | _ => scanLoop kv q threshold ks

/-- Descending-similarity order, the comparator
`(a, b) => b.similarity - a.similarity`. -/
def simDesc (a b : SResult V) : Prop := b.similarity ≤ a.similarity

noncomputable instance : DecidableRel (simDesc (V := V)) := fun a b =>
  Real.decidableLE b.similarity a.similarity

instance : IsTotal (SResult V) simDesc :=
  ⟨fun a b => le_total b.similarity a.similarity⟩

instance : IsTrans (SResult V) simDesc :=
  ⟨fun _ _ _ hab hbc => le_trans hbc hab⟩

/-- Model of `SemanticMatcher.performManualSimilaritySearch`: run the scan over
`smembers {indexName}:keys`, sort descending by similarity (JS
`Array.prototype.sort` is stable; `List.insertionSort` with a non-strict
relation is the same stable sort), and wrap any internal exception in a
`SemanticCacheError`. -/
noncomputable def performManualSimilaritySearch (kv : List (String × RVal V))
    (q : Option (List ℝ)) (threshold : ℝ) : Except CErr (List (SResult V)) :=
  match scanLoop kv q threshold (smembersKV kv keysSetKey) with
  | .error _ => .error .semanticError
  | .ok results => .ok (List.insertionSort simDesc results)

/-- The method `SemanticMatcher.performVectorSearch` needs the Redis-Stack
`FT.SEARCH` command, which the modelled plain-Redis environment does not
provide: the call always fails. -/
def performVectorSearch : Except CErr (List (SResult V)) :=
  .error .vectorSearchError

/-- Model of `SemanticMatcher.findSimilarQueries`: try the native vector search
and on any failure fall back to the manual scan. -/
noncomputable def findSimilarQueries (kv : List (String × RVal V))
    (q : Option (List ℝ)) (threshold : ℝ) : Except CErr (List (SResult V)) :=
  match performVectorSearch (V := V) with
  | .ok results => .ok results
  | .error _ => performManualSimilaritySearch kv q threshold

/-- Model of `SemanticMatcher.indexEntry`: a no-op without an embedding; otherwise
write the index record, the vector record, and add the hash to the master
set.  `env.indexWriteFails` injects a Redis failure into the first write,
which `indexEntry` rethrows as a `SemanticCacheError`. -/
def indexEntry (env : Env) (kv : List (String × RVal V)) (fp : Fingerprint)
    (e : Entry V) : Except CErr (List (String × RVal V)) :=
  match fp.embedding with
  | none => .ok kv
  | some emb =>
    if env.indexWriteFails then .error .semanticError
    else
      let d : IdxData :=
        ⟨fp.hash, emb, fp.originalQuery, e.timestamp, e.ttl, e.strategy⟩
      let kv1 := kvSet kv (indexName ++ ":" ++ fp.hash) (.idxRec d)
      let kv2 := kvSet kv1 (indexName ++ ":vectors:" ++ fp.hash) (.vecRec emb d)
      .ok (saddKV kv2 keysSetKey fp.hash)

/-- Model of `SemanticMatcher.removeEntry`: delete both index records and remove
the hash from the master set (failures are logged, never thrown). -/
def removeEntry (kv : List (String × RVal V)) (h : String) :
    List (String × RVal V) :=
  let kv1 := (kvDel kv (indexName ++ ":" ++ h)).1
  let kv2 := (kvDel kv1 (indexName ++ ":vectors:" ++ h)).1
  sremKV kv2 keysSetKey h

/-! ## Cache manager (`cache-manager.ts`) -/

/-- Model of the `getStrategy` registry lookup (`this.strategies.get(name)`). -/
def lookupStrategy (registry : List (Strategy V)) (name : String) :
    Option (Strategy V) :=
  registry.find? fun s => s.name = name

/-- The `strategy.shouldCache && !strategy.shouldCache(key, value)` gate:
absence of the predicate means "always cacheable". -/
def shouldCacheB (strat : Strategy V) (key : String) (v : V) : Bool :=
  match strat.shouldCache with
  | some p => p key v
  | none => true

/-- The digest part of the fingerprint: the strategy's custom transform
when present, else the configured hash of the normalized key. -/
def keyDigest (cfg : Config V) (strat : Strategy V) (key : String) : String :=
  match strat.customKeyGenerator with
  | some g => g (normalizeKey key)
  | none => cfg.hashFn (normalizeKey key)

/-- The lookup key `scira:cache:{strategyName}:{hash}`. -/
def fpHash (cfg : Config V) (strat : Strategy V) (key : String) : String :=
  "scira:cache:" ++ strat.name ++ ":" ++ keyDigest cfg strat key

/-- Model of `CacheManager.generateFingerprint`: normalize, digest (or custom
transform), build `scira:cache:{strategyName}:{hash}`, and for semantic
strategies try to attach an embedding — a provider failure is caught and
the fingerprint is returned without one. -/
def generateFingerprint (cfg : Config V) (env : Env) (strat : Strategy V)
    (key : String) : Fingerprint :=
  let normalizedKey := normalizeKey key
  let base : Fingerprint :=
    { hash := fpHash cfg strat key
      embedding := none
      originalQuery := key
      normalizedQuery := normalizedKey
      queryType := strat.type }
  if strat.type = SType.semantic then
    match env.embedder normalizedKey with
    | some emb => { base with embedding := some emb }
    | none => base
  else base

/-- Model of `CacheManager.getEntry`: `redis.get` + `JSON.parse`. -/
def getEntry (kv : List (String × RVal V)) (key : String) : Option (Entry V) :=
  match kvGet kv key with
  | some (.entry e) => some e
  | _ => none

/-- Model of `CacheManager.isExpired`:
`Date.now() > entry.timestamp + entry.ttl * 1000`. -/
def isExpired (now : Nat) (e : Entry V) : Bool :=
  decide (now > e.timestamp + e.ttl * 1000)

/-- Model of `CacheManager.updateStats`. -/
def updateStats (st : Stats) (isHit : Bool) (latency : ℤ) : Stats :=
  let n := st.totalRequests + 1
  { st with
    totalRequests := n
    hits := if isHit then st.hits + 1 else st.hits
    misses := if isHit then st.misses else st.misses + 1
    averageLatency := (st.averageLatency * ((n : ℚ) - 1) + (latency : ℚ)) / n }

/-- The stats record `resetStats` installs (and the constructor's). -/
def zeroStats (now : Nat) : Stats :=
  ⟨0, 0, 0, 0, 0, 0, 0, now⟩

/-- Result of a `get` call: the returned/thrown value, the post state,
the emitted events, and the number of `redis.get` cache-entry reads the
call issued (the count C3 is about). -/
structure GetOut (V : Type) where
  res : Except CErr (Option V)
  state : CState V
  events : List Event
  reads : Nat

structure SetOut (V : Type) where
  res : Except CErr Unit
  state : CState V
  events : List Event

structure DelOut (V : Type) where
  res : Except CErr Bool
  state : CState V
  events : List Event

structure ClearOut (V : Type) where
  res : Except CErr Nat
  state : CState V
  events : List Event

/-- Model of `CacheManager.delete(key)`.  Note: the method takes no options; it
always resolves the *default* strategy (`this.getStrategy()`), and the
semantic-index entry is removed only when `redis.del` actually removed a
record.  `getStrategy` throwing inside the `try` is rethrown as
`DELETE_ERROR` after an `error` event. -/
def CMdelete (cfg : Config V) (env : Env) (s : CState V) (key : String)
    (now : Nat) : DelOut V :=
  match lookupStrategy cfg.registry cfg.defaultStrategy with
  | none => ⟨.error .deleteError, s, [⟨.error, key, now⟩]⟩
  | some strat =>
    let fp := generateFingerprint cfg env strat key
    let r := kvDel s.kv fp.hash
    if r.2 > 0 then
      let kv2 := if strat.type = SType.semantic then removeEntry r.1 fp.hash else r.1
      ⟨.ok true, { s with kv := kv2 }, [⟨.delete, key, now⟩]⟩
    else ⟨.ok false, { s with kv := r.1 }, []⟩

/-- The tail of `CacheManager.get` after the lookup phase: the
`entry && !isExpired` branch (hit), the expired branch (proactive
`this.delete(key)` then miss), and the plain miss.  `t0`/`t1` are the
`Date.now()` values at entry and at the latency/expiry checks. -/
def finishGet (cfg : Config V) (env : Env) (s : CState V) (key : String)
    (entry : Option (Entry V)) (t0 t1 : Nat) : Except CErr (Option V) × CState V × List Event :=
  let latency : ℤ := (t1 : ℤ) - (t0 : ℤ)
  match entry with
  | some e =>
    if isExpired t1 e = false then
      (.ok (some e.data), { s with stats := updateStats s.stats true latency },
        [⟨.hit, key, t1⟩])
    else
      let d := CMdelete cfg env s key t1
      match d.res with
      | .error _ =>
          (.error .getError, d.state, d.events ++ [⟨.error, key, t1⟩])
      | .ok _ =>
          (.ok none, { d.state with stats := updateStats d.state.stats false latency },
            d.events ++ [⟨.miss, key, t1⟩])
  | none =>
      (.ok none, { s with stats := updateStats s.stats false latency },
        [⟨.miss, key, t1⟩])

/-- Model of `CacheManager.get`.  Strategy resolution happens before the `try`
(a `STRATEGY_ERROR` propagates unwrapped).  On an exact miss with
semantic search not disabled and a semantic strategy, the matcher is
queried with `fingerprint.embedding!` — the unchecked optional — and a
non-empty result list promotes `results[0].entry` under the new lookup
key with the *old* entry's TTL before the expiry check.  Matcher errors
are wrapped as `GET_ERROR` after an `error` event. -/
noncomputable def CMget (cfg : Config V) (env : Env) (s : CState V) (key : String)
    (opts : Opts) (t0 t1 : Nat) : GetOut V :=
  match lookupStrategy cfg.registry (jsOrStr opts.strategy cfg.defaultStrategy) with
  | none => ⟨.error .strategyError, s, [], 0⟩
  | some strat =>
    let fp := generateFingerprint cfg env strat key
    match getEntry s.kv fp.hash with
    | some e =>
      let f := finishGet cfg env s key (some e) t0 t1
      ⟨f.1, f.2.1, f.2.2, 1⟩
    | none =>
      if opts.enableSemantic ≠ some false ∧ strat.type = SType.semantic then
        match findSimilarQueries s.kv fp.embedding
            (jsOrR opts.semanticThreshold
              (jsOrR strat.semanticThreshold (0.85 : ℝ))) with
        | .error _ => ⟨.error .getError, s, [⟨.error, key, t1⟩], 1⟩
        | .ok [] =>
          let f := finishGet cfg env s key none t0 t1
          ⟨f.1, f.2.1, f.2.2, 1⟩
        | .ok (bestMatch :: _) =>
          let s1 := { s with kv := kvSet s.kv fp.hash (.entry bestMatch.entry) }
          let f := finishGet cfg env s1 key (some bestMatch.entry) t0 t1
          ⟨f.1, f.2.1, f.2.2, 1⟩
      else
        let f := finishGet cfg env s key none t0 t1
        ⟨f.1, f.2.1, f.2.2, 1⟩

/-- Model of `CacheManager.set`.  Strategy resolution and the cacheability gate
run before the `try`: a rejected `(key, value)` is a silent no-op.  The
entry is persisted first; for a semantic strategy with an embedding the
matcher then indexes it, and an indexing failure is rethrown as
`SET_ERROR` after an `error` event — the store write is not rolled
back. -/
def CMset (cfg : Config V) (env : Env) (s : CState V) (key : String) (v : V)
    (opts : Opts) (now : Nat) : SetOut V :=
  match lookupStrategy cfg.registry (jsOrStr opts.strategy cfg.defaultStrategy) with
  | none => ⟨.error .strategyError, s, []⟩
  | some strat =>
    if shouldCacheB strat key v = false then ⟨.ok (), s, []⟩
    else
      let fp := generateFingerprint cfg env strat key
      let ttl := jsOrNat opts.ttl strat.defaultTTL
      let e : Entry V := ⟨v, now, ttl, fp, strat.name⟩
      let kv1 := kvSet s.kv fp.hash (.entry e)
      if strat.type = SType.semantic ∧ fp.embedding.isSome then
        match indexEntry env kv1 fp e with
        | .error _ => ⟨.error .setError, { s with kv := kv1 }, [⟨.error, key, now⟩]⟩
        | .ok kv2 => ⟨.ok (), { s with kv := kv2 }, [⟨.set, key, now⟩]⟩
      else ⟨.ok (), { s with kv := kv1 }, [⟨.set, key, now⟩]⟩

structure BatchOut (V : Type) where
  res : Except CErr (List (String × Option V))
  state : CState V
  events : List Event
  reads : Nat

/-- The `keys.map(key => this.get(key, options))` fan-out of `getBatch`,
joined by `Promise.all` (modelled sequentially; a rejected get rejects
the batch). -/
noncomputable def batchLoop (cfg : Config V) (env : Env) (opts : Opts)
    (t0 t1 : Nat) : List String → CState V → BatchOut V
  | [], s => ⟨.ok [], s, [], 0⟩
  | k :: ks, s =>
    let g := CMget cfg env s k opts t0 t1
    match g.res with
    | .error e => ⟨.error e, g.state, g.events, g.reads⟩
    | .ok v =>
      let rest := batchLoop cfg env opts t0 t1 ks g.state
      match rest.res with
      | .error e => ⟨.error e, rest.state, g.events ++ rest.events, g.reads + rest.reads⟩
      | .ok l => ⟨.ok ((k, v) :: l), rest.state, g.events ++ rest.events, g.reads + rest.reads⟩

/-- Model of `CacheManager.getBatch`.  The deduplication check reads
`this.batchRequests` — a map nothing in the class ever inserts into — and
`waitForBatch` merely polls until the id is absent; after the (vacuous)
wait the call still fans out its own `get`s.  The check therefore has no
effect on the reads performed. -/
noncomputable def CMgetBatch (cfg : Config V) (env : Env) (s : CState V)
    (keys : List String) (opts : Opts) (t0 t1 : Nat) : BatchOut V :=
  let _inFlight := s.batchRequests.contains (env.batchHash keys)
  batchLoop cfg env opts t0 t1 keys s

/-- Model of `CacheManager.clear`.  With a pattern: delete the matching keys and
report the count.  Without: `flushall`, clear the (already flushed)
semantic index, reset the stats, and return 1. -/
def CMclear (s : CState V) (pattern : Option String) (now : Nat) : ClearOut V :=
  match pattern with
  | some p =>
    let ks := kvKeys s.kv p
    if ks.isEmpty then ⟨.ok 0, s, []⟩
    else
      let r := kvDelMany s.kv ks
      ⟨.ok r.2, { s with kv := r.1 }, [⟨.evict, "pattern:" ++ p, now⟩]⟩
  | none =>
      ⟨.ok 1, ⟨[], zeroStats now, s.batchRequests⟩, [⟨.evict, "all", now⟩]⟩

/-- Model of `CacheManager.getStats`: recompute `hitRate`, stamp `lastUpdated`,
return a copy. -/
def CMstats (s : CState V) (now : Nat) : Stats × CState V :=
  let rate : ℚ :=
    if s.stats.totalRequests > 0 then
      (s.stats.hits : ℚ) / (s.stats.totalRequests : ℚ)
    else 0
  let st := { s.stats with hitRate := rate, lastUpdated := now }
  (st, { s with stats := st })

/-- The manager state after construction. -/
def initState (now : Nat) : CState V :=
  ⟨[], zeroStats now, []⟩

/-! ## Operation sequences -/

/-- One public cache operation together with the environment and clock
readings of that call. -/
inductive Op (V : Type) where
  | get (env : Env) (key : String) (opts : Opts) (t0 t1 : Nat)
  | set (env : Env) (key : String) (v : V) (opts : Opts) (now : Nat)
  | del (env : Env) (key : String) (now : Nat)
  | batch (env : Env) (keys : List String) (opts : Opts) (t0 t1 : Nat)
  | clear (pattern : Option String) (now : Nat)
  | stats (now : Nat)

/-- State transition of one operation. -/
noncomputable def runOp (cfg : Config V) : Op V → CState V → CState V
  | .get env key opts t0 t1, s => (CMget cfg env s key opts t0 t1).state
  | .set env key v opts now, s => (CMset cfg env s key v opts now).state
  | .del env key now, s => (CMdelete cfg env s key now).state
  | .batch env keys opts t0 t1, s => (CMgetBatch cfg env s keys opts t0 t1).state
  | .clear pattern now, s => (CMclear s pattern now).state
  | .stats now, s => (CMstats s now).2

/-- Run a sequence of operations. -/
noncomputable def runOps (cfg : Config V) : List (Op V) → CState V → CState V
  | [], s => s
  | op :: ops, s => runOps cfg ops (runOp cfg op s)

/-! ## Observers used in theorem statements -/

/-- The cache entry value stored under a lookup key, if any. -/
def entryDataAt (kv : List (String × RVal V)) (key : String) : Option V :=
  match kvGet kv key with
  | some (.entry e) => some e.data
  | _ => none

/-- Whether any record is stored under a key. -/
def hasKeyB (kv : List (String × RVal V)) (key : String) : Bool :=
  (kvGet kv key).isSome

/-- Whether a hash is in the semantic index master set. -/
def idxMemberB (kv : List (String × RVal V)) (h : String) : Bool :=
  (smembersKV kv keysSetKey).contains h

/-! ## Concrete fixtures for witnesses and counterexamples

Custom strategies are first-class configuration (`config.strategies`), so
concrete runs use small registered strategies rather than the shipped
defaults (whose key generators contain regexes irrelevant to the claims).
The digest function is instantiated with `id`; all claims hold for an
arbitrary `hashFn`, and concrete runs only need it to be some function. -/

def optsN : Opts := ⟨none, none, none, none⟩

/-- An exact-match strategy. -/
def stratE : Strategy Nat := { name := "e", type := .exact, defaultTTL := 60 }

/-- Default/override pair for the expiry counterexample. -/
def stratD : Strategy Nat := { name := "d", type := .exact, defaultTTL := 60 }

def stratO : Strategy Nat := { name := "o", type := .exact, defaultTTL := 60 }

/-- A semantic strategy (no per-strategy threshold, like `academic`
minus the threshold: the 0.85 fallback applies). -/
def stratS : Strategy Nat := { name := "s", type := .semantic, defaultTTL := 60 }

/-- A strategy whose cacheability predicate rejects everything. -/
def stratR : Strategy Nat :=
  { name := "r", type := .exact, defaultTTL := 60
    shouldCache := some fun _ _ => false }

def cfgE : Config Nat := ⟨id, [stratE], "e"⟩

def cfgDO : Config Nat := ⟨id, [stratD, stratO], "d"⟩

def cfgS : Config Nat := ⟨id, [stratS], "s"⟩

def cfgR : Config Nat := ⟨id, [stratR], "r"⟩

/-- Embedding provider failing (as after an OpenAI error). -/
def envN : Env := ⟨fun _ => none, false, fun _ => ""⟩

/-- Embedding provider returning the unit vector `[1]`. -/
def envE : Env := ⟨fun _ => some [1], false, fun _ => ""⟩

/-- Working provider, but the index write to Redis fails. -/
def envI : Env := ⟨fun _ => some [1], true, fun _ => ""⟩

/-- Fixtures for the tie-break counterexample: two indexed vectors equal
to the query vector (similarity 1 for both), whose cache entries sit in
the store under the double-prefixed keys the manual scan fetches, the
first created at t=1, the second at t=2.  Such contents are exactly what
two `set`s through a strategy with a `customKeyGenerator` produce (the
generator's output is the inner key; the scan then prepends the prefix
again). -/
def fph1 : Fingerprint := ⟨"scira:cache:s:h1", none, "k1", "k1", .semantic⟩

def fph2 : Fingerprint := ⟨"scira:cache:s:h2", none, "k2", "k2", .semantic⟩

def entry1 : Entry Nat := ⟨10, 1, 100000, fph1, "s"⟩

def entry2 : Entry Nat := ⟨20, 2, 100000, fph2, "s"⟩

def meta1 : IdxData := ⟨"h1", [1], "k1", 1, 100000, "s"⟩

def meta2 : IdxData := ⟨"h2", [1], "k2", 2, 100000, "s"⟩

def kvTie : List (String × RVal Nat) :=
  [("scira_cache_embeddings:keys", .sset ["h1", "h2"]),
   ("scira_cache_embeddings:vectors:h1", .vecRec [1] meta1),
   ("scira_cache_embeddings:vectors:h2", .vecRec [1] meta2),
   ("scira:cache:s:h1", .entry entry1),
   ("scira:cache:s:h2", .entry entry2)]

def stateTie : CState Nat := ⟨kvTie, zeroStats 0, []⟩

/-! ## Keyspace lemmas -/

theorem kvGet_kvSet_self (kv : List (String × RVal V)) (k : String) (v : RVal V) :
    kvGet (kvSet kv k v) k = some v := by
  induction kv with
  | nil => simp [kvSet, kvGet]
  | cons p rest ih =>
    obtain ⟨a, b⟩ := p
    by_cases h : a = k
    · simp [kvSet, kvGet, h]
    · simp [kvSet, kvGet, h, ih]

theorem kvGet_kvSet_ne (kv : List (String × RVal V)) (k k2 : String) (v : RVal V)
    (h : k2 ≠ k) : kvGet (kvSet kv k v) k2 = kvGet kv k2 := by
  induction kv with
  | nil => simp [kvSet, kvGet, Ne.symm h]
  | cons p rest ih =>
    obtain ⟨a, b⟩ := p
    by_cases ha : a = k
    · subst ha
      simp [kvSet, kvGet, Ne.symm h]
    · by_cases h2 : a = k2
      · subst h2
        simp [kvSet, kvGet, ha]
      · simp [kvSet, kvGet, ha, h2, ih]

theorem kvGet_filter_self (kv : List (String × RVal V)) (k : String) :
    kvGet (kv.filter fun p => p.1 ≠ k) k = none := by
  induction kv with
  | nil => rfl
  | cons p rest ih =>
    obtain ⟨a, b⟩ := p
    by_cases h : a = k
    · subst h
      simpa [List.filter_cons] using ih
    · simpa [List.filter_cons, h, kvGet] using ih

theorem kvGet_filter_ne (kv : List (String × RVal V)) (k k2 : String)
    (h : k2 ≠ k) : kvGet (kv.filter fun p => p.1 ≠ k) k2 = kvGet kv k2 := by
  induction kv with
  | nil => rfl
  | cons p rest ih =>
    obtain ⟨a, b⟩ := p
    by_cases ha : a = k
    · subst ha
      have h2 : ¬a = k2 := fun hh => h hh.symm
      simpa [List.filter_cons, kvGet, h2] using ih
    · by_cases h2 : a = k2
      · subst h2
        simp [List.filter_cons, ha, kvGet]
      · simpa [List.filter_cons, ha, h2, kvGet] using ih

theorem kvGet_kvDel_self (kv : List (String × RVal V)) (k : String) :
    kvGet (kvDel kv k).1 k = none :=
  kvGet_filter_self kv k

theorem kvGet_kvDel_ne (kv : List (String × RVal V)) (k k2 : String)
    (h : k2 ≠ k) : kvGet (kvDel kv k).1 k2 = kvGet kv k2 :=
  kvGet_filter_ne kv k k2 h

theorem kvDel_count (kv : List (String × RVal V)) (k : String) :
    (kvDel kv k).2 = if (kvGet kv k).isSome then 1 else 0 := rfl

/-- Deleting an absent key leaves the keyspace unchanged. -/
theorem kvDel_of_none (kv : List (String × RVal V)) (k : String)
    (h : kvGet kv k = none) : (kvDel kv k).1 = kv := by
  induction kv with
  | nil => rfl
  | cons p rest ih =>
    obtain ⟨a, b⟩ := p
    by_cases ha : a = k
    · rw [kvGet, if_pos ha] at h
      cases h
    · rw [kvGet, if_neg ha] at h
      simpa [kvDel, List.filter_cons, ha] using congrArg (List.cons (a, b)) (ih h)

theorem not_mem_filter_ne_self (ms : List String) (h : String) :
    h ∉ ms.filter (· ≠ h) := by
  intro hmem
  have := List.of_mem_filter hmem
  simp at this

theorem contains_filter_ne_self (ms : List String) (h : String) :
    ((ms.filter (· ≠ h)).contains h) = false := by
  cases hc : (ms.filter (· ≠ h)).contains h
  · rfl
  · exact absurd (List.mem_of_elem_eq_true hc) (not_mem_filter_ne_self ms h)

theorem kvGet_sremKV_ne (kv : List (String × RVal V)) (j m : String)
    (h : j ≠ keysSetKey) : kvGet (sremKV kv keysSetKey m) j = kvGet kv j := by
  unfold sremKV
  cases hks : kvGet kv keysSetKey with
  | none => rfl
  | some rv =>
    cases rv with
    | sset ms => rw [kvGet_kvSet_ne _ _ _ _ h]
    | entry e => rfl
    | idxRec d => rfl
    | vecRec vec d => rfl

theorem idxKey_ne_vecKey (h : String) :
    indexName ++ ":" ++ h ≠ indexName ++ ":vectors:" ++ h := by
  intro he
  have hl := congrArg String.length he
  rw [String.length_append, String.length_append, String.length_append,
    String.length_append] at hl
  have h1 : (":" : String).length = 1 := rfl
  have h2 : (":vectors:" : String).length = 9 := rfl
  omega

/-- Keys of the form `{indexName}:…` differ from any key of length
`< indexName.length + 1 + suffix`. -/
theorem ne_of_length_lt {a b : String} (h : a.length < b.length) : b ≠ a := by
  intro hh
  rw [hh] at h
  exact lt_irrefl _ h

theorem idxKey_ne (h : String) : indexName ++ ":" ++ h ≠ h := by
  apply ne_of_length_lt
  rw [String.length_append, String.length_append]
  have : indexName.length = 22 := rfl
  omega

theorem vecKey_ne (h : String) : indexName ++ ":vectors:" ++ h ≠ h := by
  apply ne_of_length_lt
  rw [String.length_append, String.length_append]
  have : indexName.length = 22 := rfl
  omega

/-- The master-set key never collides with a cache lookup key: the sixth
character differs (`_` vs `:`). -/
theorem keysSetKey_ne_cacheKey (t : String) :
    keysSetKey ≠ "scira:cache:" ++ t := by
  intro h
  have hd := congrArg String.data h
  rw [String.data_append] at hd
  have h1 : keysSetKey.data =
      ['s','c','i','r','a','_','c','a','c','h','e','_','e','m','b','e','d','d',
       'i','n','g','s',':','k','e','y','s'] := rfl
  have h2 : ("scira:cache:" : String).data =
      ['s','c','i','r','a',':','c','a','c','h','e',':'] := rfl
  rw [h1, h2] at hd
  simp at hd

/-- The value `fpHash` is what `generateFingerprint` puts in the `hash` field: the
embedding attempt never changes it. -/
theorem generateFingerprint_hash (cfg : Config V) (env : Env)
    (strat : Strategy V) (key : String) :
    (generateFingerprint cfg env strat key).hash = fpHash cfg strat key := by
  unfold generateFingerprint
  by_cases h : strat.type = SType.semantic
  · simp only [h, if_true]
    cases env.embedder (normalizeKey key) <;> rfl
  · simp only [h, if_false]

/-- The cache lookup key in `scira:cache:…`-headed form (for the
master-set disjointness lemma). -/
theorem fpHash_as_append (cfg : Config V) (strat : Strategy V) (key : String) :
    fpHash cfg strat key
      = "scira:cache:" ++ (strat.name ++ (":" ++ keyDigest cfg strat key)) := by
  unfold fpHash
  rw [String.append_assoc, String.append_assoc]

/-- After `indexEntry`, the cache entry record is untouched: the index
writes go to `{indexName}:…` keys and the master set. -/
theorem kvGet_indexEntry (env : Env) (kv kv2 : List (String × RVal V))
    (fp : Fingerprint) (e : Entry V) (cfg : Config V) (strat : Strategy V)
    (key : String) (hfp : fp.hash = fpHash cfg strat key)
    (hok : indexEntry env kv fp e = .ok kv2) :
    kvGet kv2 fp.hash = kvGet kv fp.hash := by
  unfold indexEntry at hok
  cases hemb : fp.embedding with
  | none =>
    rw [hemb] at hok
    cases hok
    rfl
  | some emb =>
    rw [hemb] at hok
    by_cases hfail : env.indexWriteFails
    · simp [hfail] at hok
    · simp only [hfail, if_false] at hok
      cases hok
      have hne1 : fp.hash ≠ keysSetKey := by
        rw [hfp, fpHash_as_append]
        exact (keysSetKey_ne_cacheKey _).symm
      unfold saddKV
      rw [kvGet_kvSet_ne _ _ _ _ hne1,
        kvGet_kvSet_ne _ _ _ _ (vecKey_ne fp.hash).symm,
        kvGet_kvSet_ne _ _ _ _ (idxKey_ne fp.hash).symm]

/-- After an accepted `set`, the entry record sits under the fingerprint
hash — whatever the semantic indexing step then did or failed to do. -/
theorem CMset_lookup (cfg : Config V) (env : Env) (s : CState V) (key : String)
    (v : V) (opts : Opts) (now : Nat) (strat : Strategy V)
    (hres : lookupStrategy cfg.registry (jsOrStr opts.strategy cfg.defaultStrategy)
      = some strat)
    (hacc : shouldCacheB strat key v = true) :
    kvGet (CMset cfg env s key v opts now).state.kv (fpHash cfg strat key)
      = some (.entry ⟨v, now, jsOrNat opts.ttl strat.defaultTTL,
          generateFingerprint cfg env strat key, strat.name⟩) := by
  unfold CMset
  rw [hres]
  simp only [hacc, Bool.true_eq_false, if_false]
  by_cases hsem : strat.type = SType.semantic ∧
      (generateFingerprint cfg env strat key).embedding.isSome = true
  · rw [if_pos hsem]
    cases hidx : indexEntry env
        (kvSet s.kv (generateFingerprint cfg env strat key).hash
          (.entry ⟨v, now, jsOrNat opts.ttl strat.defaultTTL,
            generateFingerprint cfg env strat key, strat.name⟩))
        (generateFingerprint cfg env strat key)
        ⟨v, now, jsOrNat opts.ttl strat.defaultTTL,
          generateFingerprint cfg env strat key, strat.name⟩ with
    | error err =>
      simp only [hidx]
      rw [← generateFingerprint_hash cfg env strat key, kvGet_kvSet_self]
    | ok kv2 =>
      simp only [hidx]
      rw [← generateFingerprint_hash cfg env strat key,
        kvGet_indexEntry env _ kv2 _ _ cfg strat key
          (generateFingerprint_hash cfg env strat key) hidx,
        kvGet_kvSet_self]
  · rw [if_neg hsem]
    rw [← generateFingerprint_hash cfg env strat key, kvGet_kvSet_self]

theorem smembers_kvSet_ne (kv : List (String × RVal V)) (k j : String)
    (v : RVal V) (h : j ≠ k) :
    smembersKV (kvSet kv k v) j = smembersKV kv j := by
  unfold smembersKV
  rw [kvGet_kvSet_ne _ _ _ _ h]

theorem smembers_kvDel_ne (kv : List (String × RVal V)) (k j : String)
    (h : j ≠ k) : smembersKV (kvDel kv k).1 j = smembersKV kv j := by
  unfold smembersKV
  rw [kvGet_kvDel_ne _ _ _ h]

theorem vecKey_ne_keysSetKey (h : String) :
    indexName ++ ":vectors:" ++ h ≠ keysSetKey := by
  intro he
  have hl := congrArg String.length he
  rw [String.length_append, String.length_append] at hl
  have h1 : indexName.length = 22 := rfl
  have h2 : keysSetKey.length = 27 := rfl
  have h3 : (":vectors:" : String).length = 9 := rfl
  omega

theorem fpHash_length (cfg : Config V) (strat : Strategy V) (key : String) :
    13 ≤ (fpHash cfg strat key).length := by
  unfold fpHash
  rw [String.length_append, String.length_append, String.length_append]
  have h1 : ("scira:cache:" : String).length = 12 := rfl
  have h2 : (":" : String).length = 1 := rfl
  omega

theorem idxKey_fp_ne_keysSetKey (cfg : Config V) (strat : Strategy V)
    (key : String) :
    indexName ++ ":" ++ fpHash cfg strat key ≠ keysSetKey := by
  intro he
  have hl := congrArg String.length he
  rw [String.length_append, String.length_append] at hl
  have h1 : indexName.length = 22 := rfl
  have h2 : keysSetKey.length = 27 := rfl
  have h3 : (":" : String).length = 1 := rfl
  have h4 := fpHash_length cfg strat key
  omega

/-- The operation `removeEntry` leaves any key that is none of its three targets
untouched; in particular a cache lookup key. -/
theorem kvGet_removeEntry_fpHash (cfg : Config V) (strat : Strategy V)
    (key : String) (kv : List (String × RVal V)) :
    kvGet (removeEntry kv (fpHash cfg strat key)) (fpHash cfg strat key)
      = kvGet kv (fpHash cfg strat key) := by
  have hne : fpHash cfg strat key ≠ keysSetKey := by
    rw [fpHash_as_append]
    exact (keysSetKey_ne_cacheKey _).symm
  unfold removeEntry sremKV
  have e1 : kvGet (kvDel (kvDel kv (indexName ++ ":" ++ fpHash cfg strat key)).1
      (indexName ++ ":vectors:" ++ fpHash cfg strat key)).1 (fpHash cfg strat key)
      = kvGet kv (fpHash cfg strat key) := by
    rw [kvGet_kvDel_ne _ _ _ (Ne.symm (vecKey_ne _)),
      kvGet_kvDel_ne _ _ _ (Ne.symm (idxKey_ne _))]
  cases hks : kvGet (kvDel (kvDel kv (indexName ++ ":" ++ fpHash cfg strat key)).1
      (indexName ++ ":vectors:" ++ fpHash cfg strat key)).1 keysSetKey with
  | none => simpa [hks] using e1
  | some rv =>
    cases rv with
    | sset ms =>
      simp only [hks]
      rw [kvGet_kvSet_ne _ _ _ _ hne]
      exact e1
    | entry e => simpa [hks] using e1
    | idxRec d => simpa [hks] using e1
    | vecRec vec d => simpa [hks] using e1

/-- The operation `removeEntry` filters the removed hash out of the master set. -/
theorem smembers_removeEntry (kv : List (String × RVal V)) (h : String)
    (hik : indexName ++ ":" ++ h ≠ keysSetKey) :
    smembersKV (removeEntry kv h) keysSetKey
      = (smembersKV kv keysSetKey).filter (· ≠ h) := by
  unfold removeEntry sremKV
  have e1 : kvGet (kvDel (kvDel kv (indexName ++ ":" ++ h)).1
      (indexName ++ ":vectors:" ++ h)).1 keysSetKey = kvGet kv keysSetKey := by
    rw [kvGet_kvDel_ne _ _ _ (Ne.symm (vecKey_ne_keysSetKey h)),
      kvGet_kvDel_ne _ _ _ (Ne.symm hik)]
  dsimp only
  rw [e1]
  cases hks : kvGet kv keysSetKey with
  | none => simp [smembersKV, e1, hks]
  | some rv =>
    cases rv with
    | sset ms => simp [smembersKV, kvGet_kvSet_self, hks]
    | entry e => simp [smembersKV, e1, hks]
    | idxRec d => simp [smembersKV, e1, hks]
    | vecRec vec d => simp [smembersKV, e1, hks]

/-- When the master set is empty or absent the manual scan iterates
nothing and finds nothing (and, in particular, raises nothing). -/
theorem findSimilarQueries_noKeys (kv : List (String × RVal V))
    (q : Option (List ℝ)) (t : ℝ) (hidx : smembersKV kv keysSetKey = []) :
    findSimilarQueries kv q t = .ok [] := by
  simp [findSimilarQueries, performVectorSearch, performManualSimilaritySearch,
    hidx, scanLoop]

/-- The semantic branch of `get` over an empty keyspace finds nothing. -/
theorem findSimilarQueries_nil (q : Option (List ℝ)) (t : ℝ) :
    findSimilarQueries ([] : List (String × RVal V)) q t = .ok [] :=
  findSimilarQueries_noKeys [] q t rfl

/-- For a semantic strategy the fingerprint's embedding is exactly what
the provider returned (possibly nothing). -/
theorem generateFingerprint_embedding (cfg : Config V) (env : Env)
    (strat : Strategy V) (key : String) (hsem : strat.type = SType.semantic) :
    (generateFingerprint cfg env strat key).embedding
      = env.embedder (normalizeKey key) := by
  unfold generateFingerprint
  simp only [hsem, if_true]
  cases env.embedder (normalizeKey key) <;> rfl

/-- A `get` whose exact lookup misses against an empty (or emptied)
semantic index returns null, whatever the strategy type and embedding
situation. -/
theorem CMget_miss_noIndex (cfg : Config V) (env : Env) (s : CState V)
    (key : String) (opts : Opts) (t0 t1 : Nat) (strat : Strategy V)
    (hres : lookupStrategy cfg.registry (jsOrStr opts.strategy cfg.defaultStrategy)
      = some strat)
    (hmiss : kvGet s.kv (fpHash cfg strat key) = none)
    (hidx : smembersKV s.kv keysSetKey = []) :
    (CMget cfg env s key opts t0 t1).res = .ok none := by
  have hentry : getEntry s.kv (generateFingerprint cfg env strat key).hash = none := by
    rw [getEntry, generateFingerprint_hash, hmiss]
  simp only [CMget, hres, hentry]
  by_cases hsem : opts.enableSemantic ≠ some false ∧ strat.type = SType.semantic
  · rw [if_pos hsem, findSimilarQueries_noKeys _ _ _ hidx]
    simp [finishGet]
  · rw [if_neg hsem]
    simp [finishGet]

/-- A `get` against an empty keyspace misses and returns null. -/
theorem CMget_empty (cfg : Config V) (env : Env) (st : Stats) (br : List String)
    (key : String) (opts : Opts) (t0 t1 : Nat) (strat : Strategy V)
    (hres : lookupStrategy cfg.registry (jsOrStr opts.strategy cfg.defaultStrategy)
      = some strat) :
    (CMget cfg env ⟨[], st, br⟩ key opts t0 t1).res = .ok none :=
  CMget_miss_noIndex cfg env ⟨[], st, br⟩ key opts t0 t1 strat hres rfl rfl

/-- The master set `indexEntry` leaves behind: unchanged when there is
nothing to index, else the old set with the hash added if absent. -/
theorem smembers_indexEntry (cfg : Config V) (strat : Strategy V) (key : String)
    (env : Env) (kv kv2 : List (String × RVal V)) (fp : Fingerprint)
    (e : Entry V) (hfp : fp.hash = fpHash cfg strat key)
    (hok : indexEntry env kv fp e = .ok kv2) :
    kv2 = kv ∨ smembersKV kv2 keysSetKey =
      (if (smembersKV kv keysSetKey).contains fp.hash then smembersKV kv keysSetKey
       else smembersKV kv keysSetKey ++ [fp.hash]) := by
  unfold indexEntry at hok
  cases hemb : fp.embedding with
  | none =>
    rw [hemb] at hok
    cases hok
    exact Or.inl rfl
  | some emb =>
    rw [hemb] at hok
    by_cases hfail : env.indexWriteFails
    · simp [hfail] at hok
    · simp only [hfail, if_false] at hok
      cases hok
      refine Or.inr ?_
      have hs : smembersKV
          (kvSet (kvSet kv (indexName ++ ":" ++ fp.hash)
              (.idxRec ⟨fp.hash, emb, fp.originalQuery, e.timestamp, e.ttl, e.strategy⟩))
            (indexName ++ ":vectors:" ++ fp.hash)
              (.vecRec emb ⟨fp.hash, emb, fp.originalQuery, e.timestamp, e.ttl, e.strategy⟩))
          keysSetKey = smembersKV kv keysSetKey := by
        rw [smembers_kvSet_ne _ _ _ _ (Ne.symm (vecKey_ne_keysSetKey _)),
          smembers_kvSet_ne _ _ _ _ (Ne.symm (hfp ▸ idxKey_fp_ne_keysSetKey cfg strat key))]
      unfold saddKV
      rw [hs]
      unfold smembersKV
      rw [kvGet_kvSet_self]

/-- After an accepted `set` on the empty cache, the semantic-index
master set is empty — unless the strategy is semantic and the entry got
indexed, in which case it holds exactly the new fingerprint hash. -/
theorem CMset_init_smembers (cfg : Config V) (env : Env) (tinit : Nat)
    (key : String) (v : V) (opts : Opts) (now : Nat) (strat : Strategy V)
    (hres : lookupStrategy cfg.registry (jsOrStr opts.strategy cfg.defaultStrategy)
      = some strat)
    (hacc : shouldCacheB strat key v = true) :
    smembersKV (CMset cfg env (initState tinit) key v opts now).state.kv keysSetKey = []
    ∨ (strat.type = SType.semantic ∧
       smembersKV (CMset cfg env (initState tinit) key v opts now).state.kv keysSetKey
         = [fpHash cfg strat key]) := by
  have hne : keysSetKey ≠ fpHash cfg strat key := by
    rw [fpHash_as_append]
    exact keysSetKey_ne_cacheKey _
  have hkv1 : smembersKV (kvSet (initState tinit (V := V)).kv
      (generateFingerprint cfg env strat key).hash
      (.entry ⟨v, now, jsOrNat opts.ttl strat.defaultTTL,
        generateFingerprint cfg env strat key, strat.name⟩)) keysSetKey = [] := by
    rw [generateFingerprint_hash, smembers_kvSet_ne _ _ _ _ hne]
    rfl
  unfold CMset
  rw [hres]
  simp only [hacc, Bool.true_eq_false, if_false]
  by_cases hsem : strat.type = SType.semantic ∧
      (generateFingerprint cfg env strat key).embedding.isSome = true
  · rw [if_pos hsem]
    cases hidx : indexEntry env
        (kvSet (initState tinit).kv (generateFingerprint cfg env strat key).hash
          (.entry ⟨v, now, jsOrNat opts.ttl strat.defaultTTL,
            generateFingerprint cfg env strat key, strat.name⟩))
        (generateFingerprint cfg env strat key)
        ⟨v, now, jsOrNat opts.ttl strat.defaultTTL,
          generateFingerprint cfg env strat key, strat.name⟩ with
    | error err =>
      simp only [hidx]
      exact Or.inl hkv1
    | ok kv2 =>
      simp only [hidx]
      rcases smembers_indexEntry cfg strat key env _ kv2 _ _
          (generateFingerprint_hash cfg env strat key) hidx with heq | hsm
      · rw [heq] at *
        exact Or.inl hkv1
      · refine Or.inr ⟨hsem.1, ?_⟩
        rw [hsm, hkv1, generateFingerprint_hash]
        simp
  · rw [if_neg hsem]
    exact Or.inl hkv1

/-! ## Claim C1 -/

/-- C1.  Round trip: for every key `k`, value `v`, and resolvable
strategy whose cacheability predicate accepts `(k, v)`, a `get(k)` issued
with the same strategy after `set(k, v)` and before the entry's TTL
elapses returns `v` (not null).  The set and get may run under different
provider environments (`env1`, `env2`): the embedding never affects the
lookup key, and a semantic indexing failure still leaves the persisted
entry retrievable. -/
theorem C1_round_trip (cfg : Config V) (env1 env2 : Env) (s : CState V)
    (key : String) (v : V) (optsS optsG : Opts) (tset t0 t1 : Nat)
    (strat : Strategy V)
    (hres : lookupStrategy cfg.registry (jsOrStr optsS.strategy cfg.defaultStrategy)
      = some strat)
    (hsame : optsG.strategy = optsS.strategy)
    (hacc : shouldCacheB strat key v = true)
    (hfresh : t1 ≤ tset + jsOrNat optsS.ttl strat.defaultTTL * 1000) :
    (CMget cfg env2 (CMset cfg env1 s key v optsS tset).state key optsG t0 t1).res
      = .ok (some v) := by
  have hres2 : lookupStrategy cfg.registry (jsOrStr optsG.strategy cfg.defaultStrategy)
      = some strat := by rw [hsame]; exact hres
  have hentry : getEntry (CMset cfg env1 s key v optsS tset).state.kv
      (generateFingerprint cfg env2 strat key).hash
      = some ⟨v, tset, jsOrNat optsS.ttl strat.defaultTTL,
          generateFingerprint cfg env1 strat key, strat.name⟩ := by
    rw [getEntry, generateFingerprint_hash,
      CMset_lookup cfg env1 s key v optsS tset strat hres hacc]
  have hexp : isExpired t1
      (⟨v, tset, jsOrNat optsS.ttl strat.defaultTTL,
        generateFingerprint cfg env1 strat key, strat.name⟩ : Entry V) = false := by
    simp only [isExpired, decide_eq_false_iff_not, not_lt]
    exact hfresh
  simp [CMget, hres2, hentry, finishGet, hexp]

/-- C1 witness: an exact-strategy set/get round trip at concrete inputs. -/
theorem C1_round_trip_witness :
    (CMget cfgE envN (CMset cfgE envN (initState 0) "k" 7 optsN 0).state
      "k" optsN 1 1).res = .ok (some 7) :=
  C1_round_trip cfgE envN envN (initState 0) "k" 7 optsN optsN 0 1 1 stratE
    rfl rfl rfl (by decide)

/-! ## Claim C2 -/

/-- C2 counterexample.  The claim says the expired entry is proactively
deleted from the store, for every entry.  But the proactive delete is
`this.delete(key)`, which always resolves the *default* strategy: when
the expired `get` ran under a strategy override (here `o`, default `d`),
the delete computes the default strategy's fingerprint
`scira:cache:d:k`, misses, and the expired record at `scira:cache:o:k`
stays in the store even though the get correctly returned null. -/
theorem C2_expiry_counterexample :
    (CMget cfgDO envN
      (CMset cfgDO envN (initState 0) "k" 7 ⟨some "o", some 1, none, none⟩ 0).state
      "k" ⟨some "o", none, none, none⟩ 2000 2000).res = .ok none ∧
    entryDataAt
      ((CMget cfgDO envN
        (CMset cfgDO envN (initState 0) "k" 7 ⟨some "o", some 1, none, none⟩ 0).state
        "k" ⟨some "o", none, none, none⟩ 2000 2000).state).kv
      "scira:cache:o:k" = some 7 := by
  constructor
  · decide
  · decide

/-- C2 (amended).  For an entry stored with resolved ttl `t` via the
default strategy, once the clock exceeds `timestamp + t*1000`: `get`
returns null; *when the get also runs under the default strategy* (the
internal delete always resolves the default strategy, so only then do
the fingerprints coincide) the expired record is removed from the store;
and a subsequent `get` of the same key still returns null — no
resurrection. -/
theorem C2_expiry_amended (cfg : Config V) (env1 env2 env3 : Env)
    (key : String) (v : V) (optsS optsG optsG2 : Opts)
    (tinit tset t0 t1 t0' t1' : Nat) (strat : Strategy V)
    (hresD : lookupStrategy cfg.registry cfg.defaultStrategy = some strat)
    (hS : optsS.strategy = none) (hG : optsG.strategy = none)
    (hG2 : optsG2.strategy = none)
    (hacc : shouldCacheB strat key v = true)
    (hexp : t1 > tset + jsOrNat optsS.ttl strat.defaultTTL * 1000) :
    (CMget cfg env2 (CMset cfg env1 (initState tinit) key v optsS tset).state
      key optsG t0 t1).res = .ok none ∧
    hasKeyB (CMget cfg env2 (CMset cfg env1 (initState tinit) key v optsS tset).state
      key optsG t0 t1).state.kv (fpHash cfg strat key) = false ∧
    (CMget cfg env3
      (CMget cfg env2 (CMset cfg env1 (initState tinit) key v optsS tset).state
        key optsG t0 t1).state
      key optsG2 t0' t1').res = .ok none := by
  have hresS : lookupStrategy cfg.registry (jsOrStr optsS.strategy cfg.defaultStrategy)
      = some strat := by rw [hS]; exact hresD
  have hresG : lookupStrategy cfg.registry (jsOrStr optsG.strategy cfg.defaultStrategy)
      = some strat := by rw [hG]; exact hresD
  have hresG2 : lookupStrategy cfg.registry (jsOrStr optsG2.strategy cfg.defaultStrategy)
      = some strat := by rw [hG2]; exact hresD
  have hlook := CMset_lookup cfg env1 (initState tinit) key v optsS tset strat hresS hacc
  have hcount : (kvDel (CMset cfg env1 (initState tinit) key v optsS tset).state.kv
      (fpHash cfg strat key)).2 = 1 := by
    show (if (kvGet (CMset cfg env1 (initState tinit) key v optsS tset).state.kv
      (fpHash cfg strat key)).isSome then 1 else 0) = 1
    rw [hlook]
    rfl
  have hdel : CMdelete cfg env2 (CMset cfg env1 (initState tinit) key v optsS tset).state key t1
      = ⟨.ok true,
          { (CMset cfg env1 (initState tinit) key v optsS tset).state with
            kv := if strat.type = SType.semantic
              then removeEntry
                (kvDel (CMset cfg env1 (initState tinit) key v optsS tset).state.kv
                  (fpHash cfg strat key)).1 (fpHash cfg strat key)
              else (kvDel (CMset cfg env1 (initState tinit) key v optsS tset).state.kv
                  (fpHash cfg strat key)).1 },
          [⟨.delete, key, t1⟩]⟩ := by
    unfold CMdelete
    rw [hresD]
    dsimp only
    rw [generateFingerprint_hash, hcount]
    simp
  have hentry2 : getEntry (CMset cfg env1 (initState tinit) key v optsS tset).state.kv
      (generateFingerprint cfg env2 strat key).hash
      = some ⟨v, tset, jsOrNat optsS.ttl strat.defaultTTL,
          generateFingerprint cfg env1 strat key, strat.name⟩ := by
    rw [getEntry, generateFingerprint_hash, hlook]
  have hexpB : isExpired t1
      (⟨v, tset, jsOrNat optsS.ttl strat.defaultTTL,
        generateFingerprint cfg env1 strat key, strat.name⟩ : Entry V) = true := by
    simp only [isExpired, decide_eq_true_eq]
    exact hexp
  have hget1 : CMget cfg env2 (CMset cfg env1 (initState tinit) key v optsS tset).state
      key optsG t0 t1
      = ⟨.ok none,
          { (CMset cfg env1 (initState tinit) key v optsS tset).state with
            kv := if strat.type = SType.semantic
              then removeEntry
                (kvDel (CMset cfg env1 (initState tinit) key v optsS tset).state.kv
                  (fpHash cfg strat key)).1 (fpHash cfg strat key)
              else (kvDel (CMset cfg env1 (initState tinit) key v optsS tset).state.kv
                  (fpHash cfg strat key)).1
            stats := updateStats
              (CMset cfg env1 (initState tinit) key v optsS tset).state.stats false
              ((t1 : ℤ) - (t0 : ℤ)) },
          [⟨.delete, key, t1⟩, ⟨.miss, key, t1⟩], 1⟩ := by
    simp only [CMget, hresG, hentry2, finishGet, hexpB, hdel]
    rfl
  have hkvfin : kvGet (if strat.type = SType.semantic
      then removeEntry
        (kvDel (CMset cfg env1 (initState tinit) key v optsS tset).state.kv
          (fpHash cfg strat key)).1 (fpHash cfg strat key)
      else (kvDel (CMset cfg env1 (initState tinit) key v optsS tset).state.kv
          (fpHash cfg strat key)).1) (fpHash cfg strat key) = none := by
    by_cases hst : strat.type = SType.semantic
    · rw [if_pos hst, kvGet_removeEntry_fpHash, kvGet_kvDel_self]
    · rw [if_neg hst, kvGet_kvDel_self]
  have hne : keysSetKey ≠ fpHash cfg strat key := by
    rw [fpHash_as_append]
    exact keysSetKey_ne_cacheKey _
  have hM : smembersKV
      (kvDel (CMset cfg env1 (initState tinit) key v optsS tset).state.kv
        (fpHash cfg strat key)).1 keysSetKey
      = smembersKV (CMset cfg env1 (initState tinit) key v optsS tset).state.kv
          keysSetKey :=
    smembers_kvDel_ne _ _ _ hne
  have hsmfin : smembersKV (if strat.type = SType.semantic
      then removeEntry
        (kvDel (CMset cfg env1 (initState tinit) key v optsS tset).state.kv
          (fpHash cfg strat key)).1 (fpHash cfg strat key)
      else (kvDel (CMset cfg env1 (initState tinit) key v optsS tset).state.kv
          (fpHash cfg strat key)).1) keysSetKey = [] := by
    rcases CMset_init_smembers cfg env1 tinit key v optsS tset strat hresS hacc
      with hM0 | ⟨hsem2, hM0⟩
    · by_cases hst : strat.type = SType.semantic
      · rw [if_pos hst, smembers_removeEntry _ _ (idxKey_fp_ne_keysSetKey cfg strat key),
          hM, hM0]
        rfl
      · rw [if_neg hst, hM, hM0]
    · rw [if_pos hsem2, smembers_removeEntry _ _ (idxKey_fp_ne_keysSetKey cfg strat key),
        hM, hM0]
      simp
  refine ⟨by rw [hget1], by rw [hget1, hasKeyB]; dsimp only; rw [hkvfin]; rfl, ?_⟩
  rw [hget1]
  exact CMget_miss_noIndex cfg env3 _ key optsG2 t0' t1' strat hresG2 hkvfin hsmfin

/-- C2 (amended) witness: a default-strategy set, an expired get that
deletes the record, and a second get that still returns null. -/
theorem C2_expiry_amended_witness :
    (CMget cfgE envN (CMset cfgE envN (initState 0) "k" 7 optsN 0).state
      "k" optsN 70000 70000).res = .ok none ∧
    hasKeyB (CMget cfgE envN (CMset cfgE envN (initState 0) "k" 7 optsN 0).state
      "k" optsN 70000 70000).state.kv (fpHash cfgE stratE "k") = false ∧
    (CMget cfgE envN
      (CMget cfgE envN (CMset cfgE envN (initState 0) "k" 7 optsN 0).state
        "k" optsN 70000 70000).state
      "k" optsN 70001 70001).res = .ok none :=
  C2_expiry_amended cfgE envN envN envN "k" 7 optsN optsN optsN 0 0 70000 70000
    70001 70001 stratE rfl rfl rfl rfl rfl (by decide)

/-! ## Claim C7 -/

/-- C7.  Cacheability gate: whenever the resolved strategy's predicate
rejects `(key, value)`, `set` returns without error, without writing to
the store, and without emitting any event — the call is the identity on
the state — and a `get` of that key issued next (the cache starting
empty) returns null. -/
theorem C7_cacheability_gate (cfg : Config V) (env env2 : Env) (s : CState V)
    (key : String) (v : V) (opts : Opts) (now tinit t0 t1 : Nat)
    (strat : Strategy V)
    (hres : lookupStrategy cfg.registry (jsOrStr opts.strategy cfg.defaultStrategy)
      = some strat)
    (hrej : shouldCacheB strat key v = false) :
    CMset cfg env s key v opts now = ⟨.ok (), s, []⟩ ∧
    (CMget cfg env2 (CMset cfg env (initState tinit) key v opts now).state
        key opts t0 t1).res = .ok none := by
  have hnoop : ∀ s2 : CState V, CMset cfg env s2 key v opts now = ⟨.ok (), s2, []⟩ := by
    intro s2
    unfold CMset
    rw [hres]
    simp [hrej]
  refine ⟨hnoop s, ?_⟩
  rw [hnoop (initState tinit)]
  exact CMget_empty cfg env2 (zeroStats tinit) [] key opts t0 t1 strat hres

/-- C7 witness: a strategy whose predicate rejects everything; `set` is
the identity and the following `get` is a null miss. -/
theorem C7_cacheability_gate_witness :
    CMset cfgR envN (initState 5) "k" 7 optsN 9 = ⟨.ok (), initState 5, []⟩ ∧
    (CMget cfgR envN (CMset cfgR envN (initState 0) "k" 7 optsN 9).state
        "k" optsN 10 10).res = .ok none :=
  C7_cacheability_gate cfgR envN envN (initState 5) "k" 7 optsN 9 0 10 10
    stratR rfl rfl

/-! ## Claim C8 -/

/-- C8 counterexample.  The claim says the semantic index entry is
removed whenever the (default) strategy is semantic.  Reachable refuting
run: a semantic `set` indexes the entry; `clear` with the record's exact
key as pattern removes the store record but, as in the source, does not
touch the index; `delete` then finds `redis.del` removed nothing, returns
`false`, and — because index removal is guarded by `result > 0` — leaves
the semantic index entry in place. -/
theorem C8_delete_counterexample :
    (CMdelete cfgS envE
      (CMclear (CMset cfgS envE (initState 0) "a" 7 optsN 0).state
        (some "scira:cache:s:a") 1).state
      "a" 2).res = .ok false ∧
    idxMemberB
      ((CMdelete cfgS envE
        (CMclear (CMset cfgS envE (initState 0) "a" 7 optsN 0).state
          (some "scira:cache:s:a") 1).state
        "a" 2).state).kv
      "scira:cache:s:a" = true := by
  constructor
  · decide
  · decide

/-- C8 (amended).  `delete` always recomputes the fingerprint for the
*default* strategy (the method takes no options, so there is no
caller-specified strategy); the store record under that fingerprint is
deleted; the call returns `true` exactly when a record was actually
removed; and the semantic index entry is removed only when the default
strategy is semantic *and* a record was actually removed — when the
record was already gone the keyspace (index included) is left exactly as
it was and the call returns `false`. -/
theorem C8_delete_amended (cfg : Config V) (env : Env) (s : CState V)
    (key : String) (now : Nat) (strat : Strategy V)
    (hres : lookupStrategy cfg.registry cfg.defaultStrategy = some strat) :
    (CMdelete cfg env s key now).res
      = .ok ((kvGet s.kv (fpHash cfg strat key)).isSome) ∧
    kvGet (CMdelete cfg env s key now).state.kv (fpHash cfg strat key) = none ∧
    ((kvGet s.kv (fpHash cfg strat key)).isSome = true →
      strat.type = SType.semantic →
      kvGet (CMdelete cfg env s key now).state.kv
        (indexName ++ ":" ++ fpHash cfg strat key) = none ∧
      kvGet (CMdelete cfg env s key now).state.kv
        (indexName ++ ":vectors:" ++ fpHash cfg strat key) = none ∧
      idxMemberB (CMdelete cfg env s key now).state.kv (fpHash cfg strat key)
        = false) ∧
    ((kvGet s.kv (fpHash cfg strat key)).isSome = false →
      (CMdelete cfg env s key now).state.kv = s.kv) := by
  cases hpres : (kvGet s.kv (fpHash cfg strat key)).isSome with
  | true =>
    have hdel : CMdelete cfg env s key now
        = ⟨.ok true,
            { s with kv := (if strat.type = SType.semantic
              then removeEntry (kvDel s.kv (fpHash cfg strat key)).1
                (fpHash cfg strat key)
              else (kvDel s.kv (fpHash cfg strat key)).1) },
            [⟨.delete, key, now⟩]⟩ := by
      unfold CMdelete
      rw [hres]
      dsimp only
      rw [generateFingerprint_hash]
      have hcount : (kvDel s.kv (fpHash cfg strat key)).2 = 1 := by
        show (if (kvGet s.kv (fpHash cfg strat key)).isSome then 1 else 0) = 1
        rw [hpres]
        rfl
      rw [hcount]
      simp
    rw [hdel]
    refine ⟨rfl, ?_, ?_, ?_⟩
    · dsimp only
      by_cases hst : strat.type = SType.semantic
      · rw [if_pos hst, kvGet_removeEntry_fpHash, kvGet_kvDel_self]
      · rw [if_neg hst, kvGet_kvDel_self]
    · intro _ hst
      dsimp only
      rw [if_pos hst]
      refine ⟨?_, ?_, ?_⟩
      · unfold removeEntry
        dsimp only
        rw [kvGet_sremKV_ne _ _ _ (idxKey_fp_ne_keysSetKey cfg strat key),
          kvGet_kvDel_ne _ _ _ (idxKey_ne_vecKey (fpHash cfg strat key)),
          kvGet_kvDel_self]
      · unfold removeEntry
        dsimp only
        rw [kvGet_sremKV_ne _ _ _ (vecKey_ne_keysSetKey (fpHash cfg strat key)),
          kvGet_kvDel_self]
      · unfold idxMemberB
        rw [smembers_removeEntry _ _ (idxKey_fp_ne_keysSetKey cfg strat key)]
        exact contains_filter_ne_self _ _
    · intro habs
      cases habs
  | false =>
    have hnone : kvGet s.kv (fpHash cfg strat key) = none := by
      cases hk : kvGet s.kv (fpHash cfg strat key) with
      | none => rfl
      | some rv => rw [hk] at hpres; cases hpres
    have hdel : CMdelete cfg env s key now
        = ⟨.ok false, { s with kv := (kvDel s.kv (fpHash cfg strat key)).1 }, []⟩ := by
      unfold CMdelete
      rw [hres]
      dsimp only
      rw [generateFingerprint_hash]
      have hcount : (kvDel s.kv (fpHash cfg strat key)).2 = 0 := by
        show (if (kvGet s.kv (fpHash cfg strat key)).isSome then 1 else 0) = 0
        rw [hpres]
        rfl
      rw [hcount]
      simp
    have hid : (kvDel s.kv (fpHash cfg strat key)).1 = s.kv :=
      kvDel_of_none s.kv (fpHash cfg strat key) hnone
    rw [hdel, hid]
    exact ⟨rfl, hnone, fun h _ => absurd h (by simp), fun _ => rfl⟩

/-- C8 witness: a semantic set, then a delete of the present record:
returns true, the record and all three index artifacts are gone; and a
second delete on the now-absent record returns false leaving the
keyspace unchanged. -/
theorem C8_delete_amended_witness :
    (CMdelete cfgS envE (CMset cfgS envE (initState 0) "a" 7 optsN 0).state
        "a" 1).res = .ok true ∧
    kvGet (CMdelete cfgS envE (CMset cfgS envE (initState 0) "a" 7 optsN 0).state
        "a" 1).state.kv (fpHash cfgS stratS "a") = none ∧
    idxMemberB (CMdelete cfgS envE
        (CMset cfgS envE (initState 0) "a" 7 optsN 0).state "a" 1).state.kv
      (fpHash cfgS stratS "a") = false := by
  have h := C8_delete_amended cfgS envE
    (CMset cfgS envE (initState 0) "a" 7 optsN 0).state "a" 1 stratS rfl
  refine ⟨?_, h.2.1, (h.2.2.1 (by decide) rfl).2.2⟩
  rw [h.1]
  decide

/-! ## Claim C3 -/

theorem CMdelete_batch (cfg : Config V) (env : Env) (s : CState V)
    (key : String) (now : Nat) :
    (CMdelete cfg env s key now).state.batchRequests = s.batchRequests := by
  unfold CMdelete
  cases lookupStrategy cfg.registry cfg.defaultStrategy with
  | none => rfl
  | some strat =>
    dsimp only
    split <;> rfl

theorem finishGet_batch (cfg : Config V) (env : Env) (s : CState V)
    (key : String) (e : Option (Entry V)) (t0 t1 : Nat) :
    (finishGet cfg env s key e t0 t1).2.1.batchRequests = s.batchRequests := by
  unfold finishGet
  cases e with
  | none => rfl
  | some e =>
    dsimp only
    split
    · rfl
    · have hd := CMdelete_batch cfg env s key t1
      split
      · exact hd
      · exact hd

theorem CMget_batchRequests (cfg : Config V) (env : Env) (s : CState V)
    (key : String) (opts : Opts) (t0 t1 : Nat) :
    (CMget cfg env s key opts t0 t1).state.batchRequests = s.batchRequests := by
  unfold CMget
  cases lookupStrategy cfg.registry (jsOrStr opts.strategy cfg.defaultStrategy) with
  | none => rfl
  | some strat =>
    dsimp only
    split
    · exact finishGet_batch cfg env s key _ t0 t1
    · split
      · split
        · rfl
        · exact finishGet_batch cfg env s key none t0 t1
        · exact finishGet_batch cfg env _ key _ t0 t1
      · exact finishGet_batch cfg env s key none t0 t1

theorem CMset_batchRequests (cfg : Config V) (env : Env) (s : CState V)
    (key : String) (v : V) (opts : Opts) (now : Nat) :
    (CMset cfg env s key v opts now).state.batchRequests = s.batchRequests := by
  unfold CMset
  cases lookupStrategy cfg.registry (jsOrStr opts.strategy cfg.defaultStrategy) with
  | none => rfl
  | some strat =>
    dsimp only
    split
    · rfl
    · split
      · split <;> rfl
      · rfl

theorem batchLoop_batchRequests (cfg : Config V) (env : Env) (opts : Opts)
    (t0 t1 : Nat) (keys : List String) (s : CState V) :
    (batchLoop cfg env opts t0 t1 keys s).state.batchRequests
      = s.batchRequests := by
  induction keys generalizing s with
  | nil => rfl
  | cons k ks ih =>
    unfold batchLoop
    dsimp only
    have hg := CMget_batchRequests cfg env s k opts t0 t1
    split
    · exact hg
    · split
      · rw [ih]
        exact hg
      · rw [ih]
        exact hg

/-- Nothing any public operation does ever inserts into `batchRequests`:
the in-flight map `getBatch` consults for deduplication is invariantly
whatever it started as (empty, for a fresh manager). -/
theorem runOp_batchRequests (cfg : Config V) (op : Op V) (s : CState V) :
    (runOp cfg op s).batchRequests = s.batchRequests := by
  cases op with
  | get env key opts t0 t1 => exact CMget_batchRequests cfg env s key opts t0 t1
  | set env key v opts now => exact CMset_batchRequests cfg env s key v opts now
  | del env key now => exact CMdelete_batch cfg env s key now
  | batch env keys opts t0 t1 =>
    exact batchLoop_batchRequests cfg env opts t0 t1 keys s
  | clear pattern now =>
    cases pattern with
    | none => rfl
    | some p =>
      rw [runOp]
      unfold CMclear
      dsimp only
      split <;> rfl
  | stats now => rfl

/-- C3.  Batch deduplication is broken, in two ways the model makes
exact: (1) no operation ever registers an in-flight batch in
`batchRequests` (first conjunct), so the `has(batchId)` check `getBatch`
performs is false in every reachable state under any interleaving and
`waitForBatch` returns immediately; (2) `getBatch` then fans out its own
per-key `get`s unconditionally (even the wait path would).  Hence two
identical `getBatch(["k"])` calls — the second starting while/after the
first is in flight — each issue one store read for the key, 2 in total,
where a single batch issues 1: the second call duplicates the work
instead of awaiting the in-flight result. -/
theorem C3_batch_dedup_broken :
    (∀ (W : Type) (cfg : Config W) (op : Op W) (s : CState W),
      (runOp cfg op s).batchRequests = s.batchRequests) ∧
    (CMgetBatch cfgE envN (initState 0) ["k"] optsN 0 0).reads = 1 ∧
    (CMgetBatch cfgE envN
      (CMgetBatch cfgE envN (initState 0) ["k"] optsN 0 0).state
      ["k"] optsN 0 0).reads = 1 := by
  refine ⟨fun W cfg op s => runOp_batchRequests cfg op s, ?_, ?_⟩
  · decide
  · decide

/-! ## Claim C4 -/

/-- C4.  The code's own comment in `generateFingerprint` says a failed
embedding means "Continue without embedding - will fall back to exact
matching", and the spec says the Similarity Matcher is then not queried
and no error reaches the caller.  But `get`'s semantic guard never
checks that an embedding was produced: it calls the matcher with
`fingerprint.embedding!` (undefined).  Concretely: after one semantic
`set` has populated the index, a `get` of a different key under a
failing embedding provider reaches the manual scan, which dereferences
the undefined query vector (`a.length` — a TypeError), wrapped into
`SemanticCacheError` and rethrown to the caller as `GET_ERROR` (third
conjunct: only when the index happens to be empty does the call survive
as a plain miss). -/
theorem C4_embedding_failure_reaches_caller :
    (CMset cfgS envE (initState 0) "a" 7 optsN 0).res = .ok () ∧
    (CMget cfgS envN (CMset cfgS envE (initState 0) "a" 7 optsN 0).state
      "b" optsN 1 1).res = .error .getError ∧
    (CMget cfgS envN (initState 0) "b" optsN 1 1).res = .ok none := by
  refine ⟨?_, ?_, ?_⟩
  · decide
  · decide
  · decide

/-! ## Claim C9 -/

/-- The operation `delete` never touches the stats aggregate. -/
theorem CMdelete_stats (cfg : Config V) (env : Env) (s : CState V)
    (key : String) (now : Nat) :
    (CMdelete cfg env s key now).state.stats = s.stats := by
  unfold CMdelete
  cases lookupStrategy cfg.registry cfg.defaultStrategy with
  | none => rfl
  | some strat =>
    dsimp only
    split <;> rfl

/-- The operation `set` never touches the stats aggregate. -/
theorem CMset_stats (cfg : Config V) (env : Env) (s : CState V) (key : String)
    (v : V) (opts : Opts) (now : Nat) :
    (CMset cfg env s key v opts now).state.stats = s.stats := by
  unfold CMset
  cases lookupStrategy cfg.registry (jsOrStr opts.strategy cfg.defaultStrategy) with
  | none => rfl
  | some strat =>
    dsimp only
    split
    · rfl
    · split
      · split <;> rfl
      · rfl

theorem updateStats_inv (st : Stats) (b : Bool) (l : ℤ)
    (h : st.hits + st.misses = st.totalRequests) :
    (updateStats st b l).hits + (updateStats st b l).misses
      = (updateStats st b l).totalRequests := by
  cases b <;> simp [updateStats] <;> omega

theorem finishGet_inv (cfg : Config V) (env : Env) (s : CState V) (key : String)
    (e : Option (Entry V)) (t0 t1 : Nat)
    (h : s.stats.hits + s.stats.misses = s.stats.totalRequests) :
    (finishGet cfg env s key e t0 t1).2.1.stats.hits
        + (finishGet cfg env s key e t0 t1).2.1.stats.misses
      = (finishGet cfg env s key e t0 t1).2.1.stats.totalRequests := by
  unfold finishGet
  cases e with
  | none => exact updateStats_inv _ _ _ h
  | some e =>
    dsimp only
    split
    · exact updateStats_inv _ _ _ h
    · have hd := CMdelete_stats cfg env s key t1
      split
      · rw [hd]
        exact h
      · dsimp only
        rw [hd]
        exact updateStats_inv _ _ _ h

theorem CMget_inv (cfg : Config V) (env : Env) (s : CState V) (key : String)
    (opts : Opts) (t0 t1 : Nat)
    (h : s.stats.hits + s.stats.misses = s.stats.totalRequests) :
    (CMget cfg env s key opts t0 t1).state.stats.hits
        + (CMget cfg env s key opts t0 t1).state.stats.misses
      = (CMget cfg env s key opts t0 t1).state.stats.totalRequests := by
  unfold CMget
  cases lookupStrategy cfg.registry (jsOrStr opts.strategy cfg.defaultStrategy) with
  | none => exact h
  | some strat =>
    dsimp only
    split
    · exact finishGet_inv cfg env s key _ t0 t1 h
    · split
      · split
        · exact h
        · exact finishGet_inv cfg env s key none t0 t1 h
        · exact finishGet_inv cfg env _ key _ t0 t1 h
      · exact finishGet_inv cfg env s key none t0 t1 h

theorem batchLoop_inv (cfg : Config V) (env : Env) (opts : Opts) (t0 t1 : Nat)
    (keys : List String) (s : CState V)
    (h : s.stats.hits + s.stats.misses = s.stats.totalRequests) :
    (batchLoop cfg env opts t0 t1 keys s).state.stats.hits
        + (batchLoop cfg env opts t0 t1 keys s).state.stats.misses
      = (batchLoop cfg env opts t0 t1 keys s).state.stats.totalRequests := by
  induction keys generalizing s with
  | nil => exact h
  | cons k ks ih =>
    unfold batchLoop
    dsimp only
    have hg := CMget_inv cfg env s k opts t0 t1 h
    split
    · exact hg
    · split
      · exact ih _ hg
      · exact ih _ hg

/-- The `hits + misses = totalRequests` invariant holds in every state an
operation sequence can reach. -/
theorem runOps_inv (cfg : Config V) (ops : List (Op V)) (s : CState V)
    (h : s.stats.hits + s.stats.misses = s.stats.totalRequests) :
    (runOps cfg ops s).stats.hits + (runOps cfg ops s).stats.misses
      = (runOps cfg ops s).stats.totalRequests := by
  induction ops generalizing s with
  | nil => exact h
  | cons op ops ih =>
    refine ih _ ?_
    cases op with
    | get env key opts t0 t1 => exact CMget_inv cfg env s key opts t0 t1 h
    | set env key v opts now => rw [runOp, CMset_stats]; exact h
    | del env key now => rw [runOp, CMdelete_stats]; exact h
    | batch env keys opts t0 t1 =>
      exact batchLoop_inv cfg env opts t0 t1 keys s h
    | clear pattern now =>
      cases pattern with
      | none => rfl
      | some p =>
        rw [runOp]
        unfold CMclear
        dsimp only
        split <;> exact h
    | stats now => exact h

/-- C9.  Stats invariants: after every sequence of cache operations from
a fresh manager, `hits + misses = totalRequests`; the `hitRate` that
`getStats` reports lies in `[0, 1]` and is `0` when `totalRequests` is
`0`; and after `clear()` with no pattern every counter — hits, misses,
totalRequests, hitRate, averageLatency, storageSize, evictions — is
zero. -/
theorem C9_stats_invariants (cfg : Config V) (ops : List (Op V))
    (tinit now tc : Nat) :
    ((runOps cfg ops (initState tinit)).stats.hits
        + (runOps cfg ops (initState tinit)).stats.misses
      = (runOps cfg ops (initState tinit)).stats.totalRequests) ∧
    (0 ≤ (CMstats (runOps cfg ops (initState tinit)) now).1.hitRate ∧
      (CMstats (runOps cfg ops (initState tinit)) now).1.hitRate ≤ 1) ∧
    ((runOps cfg ops (initState tinit)).stats.totalRequests = 0 →
      (CMstats (runOps cfg ops (initState tinit)) now).1.hitRate = 0) ∧
    ((CMclear (runOps cfg ops (initState tinit)) none tc).state.stats.hits = 0 ∧
     (CMclear (runOps cfg ops (initState tinit)) none tc).state.stats.misses = 0 ∧
     (CMclear (runOps cfg ops (initState tinit)) none tc).state.stats.totalRequests = 0 ∧
     (CMclear (runOps cfg ops (initState tinit)) none tc).state.stats.hitRate = 0 ∧
     (CMclear (runOps cfg ops (initState tinit)) none tc).state.stats.averageLatency = 0 ∧
     (CMclear (runOps cfg ops (initState tinit)) none tc).state.stats.storageSize = 0 ∧
     (CMclear (runOps cfg ops (initState tinit)) none tc).state.stats.evictions = 0) := by
  have hinv := runOps_inv cfg ops (initState tinit) rfl
  have hle : (runOps cfg ops (initState tinit)).stats.hits
      ≤ (runOps cfg ops (initState tinit)).stats.totalRequests := by omega
  refine ⟨hinv, ⟨?_, ?_⟩, ?_, rfl, rfl, rfl, rfl, rfl, rfl, rfl⟩
  · unfold CMstats
    dsimp only
    split
    · positivity
    · exact le_refl 0
  · unfold CMstats
    dsimp only
    split
    · rename_i hpos
      rw [div_le_one (by exact_mod_cast hpos)]
      exact_mod_cast hle
    · exact zero_le_one
  · intro hz
    unfold CMstats
    dsimp only
    rw [hz]
    simp

/-! ## Claim C10 -/

/-- C10.  `set` is not atomic on error for semantic strategies: when the
store write succeeds but the semantic indexing step fails, the call
raises `SET_ERROR` (after an `error` event), yet the entry has already
been persisted under the fingerprint hash and a subsequent `get` (before
expiry, same strategy) still returns the value — the store write is not
rolled back. -/
theorem C10_set_not_atomic (cfg : Config V) (env envG : Env) (s : CState V)
    (key : String) (v : V) (opts optsG : Opts) (now t0 t1 : Nat)
    (strat : Strategy V)
    (hres : lookupStrategy cfg.registry (jsOrStr opts.strategy cfg.defaultStrategy)
      = some strat)
    (hacc : shouldCacheB strat key v = true)
    (hsem : strat.type = SType.semantic)
    (hemb : (env.embedder (normalizeKey key)).isSome = true)
    (hfail : env.indexWriteFails = true)
    (hsame : optsG.strategy = opts.strategy)
    (hfresh : t1 ≤ now + jsOrNat opts.ttl strat.defaultTTL * 1000) :
    (CMset cfg env s key v opts now).res = .error .setError ∧
    (CMset cfg env s key v opts now).events = [⟨.error, key, now⟩] ∧
    kvGet (CMset cfg env s key v opts now).state.kv (fpHash cfg strat key)
      = some (.entry ⟨v, now, jsOrNat opts.ttl strat.defaultTTL,
          generateFingerprint cfg env strat key, strat.name⟩) ∧
    (CMget cfg envG (CMset cfg env s key v opts now).state key optsG t0 t1).res
      = .ok (some v) := by
  have hlook := CMset_lookup cfg env s key v opts now strat hres hacc
  have hisSome : (generateFingerprint cfg env strat key).embedding.isSome = true := by
    rw [generateFingerprint_embedding cfg env strat key hsem]
    exact hemb
  have hidx : ∀ kv1, indexEntry env kv1 (generateFingerprint cfg env strat key)
      (⟨v, now, jsOrNat opts.ttl strat.defaultTTL,
        generateFingerprint cfg env strat key, strat.name⟩ : Entry V)
      = .error .semanticError := by
    intro kv1
    unfold indexEntry
    cases hev : (generateFingerprint cfg env strat key).embedding with
    | none => rw [hev] at hisSome; cases hisSome
    | some emb => simp [hev, hfail]
  have hout : (CMset cfg env s key v opts now).res = .error .setError ∧
      (CMset cfg env s key v opts now).events = [⟨.error, key, now⟩] := by
    unfold CMset
    rw [hres]
    simp only [hacc, Bool.true_eq_false, if_false]
    rw [if_pos ⟨hsem, hisSome⟩, hidx]
    exact ⟨rfl, rfl⟩
  refine ⟨hout.1, hout.2, hlook, ?_⟩
  have hres2 : lookupStrategy cfg.registry (jsOrStr optsG.strategy cfg.defaultStrategy)
      = some strat := by rw [hsame]; exact hres
  have hentry : getEntry (CMset cfg env s key v opts now).state.kv
      (generateFingerprint cfg envG strat key).hash
      = some ⟨v, now, jsOrNat opts.ttl strat.defaultTTL,
          generateFingerprint cfg env strat key, strat.name⟩ := by
    rw [getEntry, generateFingerprint_hash, hlook]
  have hexp : isExpired t1
      (⟨v, now, jsOrNat opts.ttl strat.defaultTTL,
        generateFingerprint cfg env strat key, strat.name⟩ : Entry V) = false := by
    simp only [isExpired, decide_eq_false_iff_not, not_lt]
    exact hfresh
  simp [CMget, hres2, hentry, finishGet, hexp]

/-! ## Claims C5 and C6 -/

/-- Cosine similarity of the unit vector `[1]` with itself is exactly 1
(exact in floats as well). -/
theorem cos_one : cosineSimilarity [(1 : ℝ)] [(1 : ℝ)] = .ok 1 := by
  simp [cosineSimilarity]

/-- Any successful `findSimilarQueries` result (always the manual scan in
the modelled environment) is sorted by descending similarity. -/
theorem findSimilarQueries_sorted (kv : List (String × RVal V))
    (q : Option (List ℝ)) (t : ℝ) (L : List (SResult V))
    (hok : findSimilarQueries kv q t = .ok L) : L.Sorted simDesc := by
  unfold findSimilarQueries performVectorSearch performManualSimilaritySearch at hok
  cases hscan : scanLoop kv q t (smembersKV kv keysSetKey) with
  | error e =>
    rw [hscan] at hok
    cases hok
  | ok rs =>
    rw [hscan] at hok
    cases hok
    exact List.sorted_insertionSort simDesc rs

/-- Evaluation of the scan on the tie fixture: both candidates have
similarity exactly 1, and the stable sort keeps them in index
enumeration order — `h1` (created at t=1) before `h2` (created at t=2). -/
theorem findSimilar_kvTie :
    findSimilarQueries kvTie (some [1]) (0.85 : ℝ)
      = .ok [⟨"h1", 1, 0, entry1⟩, ⟨"h2", 1, 0, entry2⟩] := by
  have ha1 : "scira_cache_embeddings" ++ ":vectors:" ++ "h1"
      = "scira_cache_embeddings:vectors:h1" := rfl
  have ha2 : "scira_cache_embeddings" ++ ":vectors:" ++ "h2"
      = "scira_cache_embeddings:vectors:h2" := rfl
  have hb1 : "scira:cache:" ++ "s" ++ ":" ++ "h1" = "scira:cache:s:h1" := rfl
  have hb2 : "scira:cache:" ++ "s" ++ ":" ++ "h2" = "scira:cache:s:h2" := rfl
  have h85 : (0.85 : ℝ) ≤ 1 := by norm_num
  simp [findSimilarQueries, performVectorSearch, performManualSimilaritySearch,
    scanLoop, smembersKV, kvGet, keysSetKey, indexName, cosineSimilarityJS,
    kvTie, meta1, meta2, ha1, ha2, hb1, hb2, cos_one, List.insertionSort,
    List.orderedInsert, simDesc, h85]

/-- C5 counterexample.  Two candidates with *equal* similarity (both 1):
the most recently created is `entry2` (timestamp 2, data 20), but the
`get` serves `entry1` (timestamp 1, data 10) — the first in index
enumeration order — because the comparator sorts by similarity only and
`get` takes `semanticResults[0]`; no code path consults `createdAt`.
(The fixture keyspace holds the entries under the double-prefixed keys
the scan fetches; precisely the layout `set` produces through a strategy
whose `customKeyGenerator` emits full `scira:cache:…` keys.) -/
theorem C5_tie_break_counterexample :
    findSimilarQueries kvTie (some [1]) (0.85 : ℝ)
      = .ok [⟨"h1", 1, 0, entry1⟩, ⟨"h2", 1, 0, entry2⟩] ∧
    entry1.timestamp < entry2.timestamp ∧
    entry2.data = 20 ∧
    (CMget cfgS envE stateTie "q" optsN 5 5).res = .ok (some 10) := by
  refine ⟨findSimilar_kvTie, by decide, rfl, ?_⟩
  have hstkv : stateTie.kv = kvTie := rfl
  have hmiss : getEntry kvTie "scira:cache:s:q" = none := rfl
  have happ : "scira:cache:" ++ "s" ++ ":" ++ "q" = "scira:cache:s:q" := rfl
  simp [CMget, cfgS, lookupStrategy, jsOrStr, stratS, optsN, List.find?,
    generateFingerprint, fpHash, keyDigest, normalizeKey, trimChars,
    collapseWs, envE, jsOrR, hstkv, happ, hmiss, findSimilar_kvTie,
    finishGet, isExpired, entry1, updateStats]

/-- C5 (amended).  When a `get` falls through to semantic search and the
matcher returns at least one result, the entry used as the hit is
`results[0]`, which has maximal similarity among the results (the list is
sorted descending); ties between equal-similarity results are broken by
the stable sort's index enumeration order, not by creation timestamp. -/
theorem C5_best_match_amended (cfg : Config V) (env : Env) (s : CState V)
    (key : String) (opts : Opts) (t0 t1 : Nat) (strat : Strategy V)
    (b : SResult V) (rest : List (SResult V))
    (hres : lookupStrategy cfg.registry (jsOrStr opts.strategy cfg.defaultStrategy)
      = some strat)
    (hmiss : kvGet s.kv (fpHash cfg strat key) = none)
    (hsem : opts.enableSemantic ≠ some false ∧ strat.type = SType.semantic)
    (hfind : findSimilarQueries s.kv (generateFingerprint cfg env strat key).embedding
        (jsOrR opts.semanticThreshold (jsOrR strat.semanticThreshold (0.85 : ℝ)))
      = .ok (b :: rest))
    (hfresh : isExpired t1 b.entry = false) :
    (CMget cfg env s key opts t0 t1).res = .ok (some b.entry.data) ∧
    (∀ r ∈ b :: rest, r.similarity ≤ b.similarity) := by
  constructor
  · have hentry : getEntry s.kv (generateFingerprint cfg env strat key).hash
        = none := by
      unfold getEntry
      rw [generateFingerprint_hash, hmiss]
    simp only [CMget, hres, hentry]
    rw [if_pos hsem, hfind]
    simp [finishGet, hfresh]
  · have hsorted := findSimilarQueries_sorted _ _ _ _ hfind
    intro r hr
    rcases List.mem_cons.1 hr with hb | hrest
    · rw [hb]
    · exact List.rel_of_sorted_cons hsorted r hrest

/-- C5 (amended) witness: on the tie fixture the hit is the head result
and every result's similarity is bounded by the head's. -/
theorem C5_best_match_amended_witness :
    (CMget cfgS envE stateTie "q" optsN 5 5).res
      = .ok (some (SResult.entry ⟨"h1", 1, 0, entry1⟩).data) ∧
    (∀ r ∈ [(⟨"h1", 1, 0, entry1⟩ : SResult Nat), ⟨"h2", 1, 0, entry2⟩],
      r.similarity ≤ (SResult.similarity (⟨"h1", 1, 0, entry1⟩ : SResult Nat))) :=
  C5_best_match_amended cfgS envE stateTie "q" optsN 5 5 stratS
    ⟨"h1", 1, 0, entry1⟩ [⟨"h2", 1, 0, entry2⟩]
    rfl rfl ⟨by decide, rfl⟩ findSimilar_kvTie rfl

/-- C6.  The spec calls the manual scan a correctness fallback that
returns exactly the indexed entries at or above the threshold, sorted
descending.  The code's scan additionally fetches the cache entry under
`scira:cache:{strategy}:{key}` where `key` is an indexed member — but
indexed members are *full lookup keys* (already `scira:cache:…`), so the
fetch targets a double-prefixed key that `set` never writes, and the scan
drops every candidate.  Concretely: after `set("a", 7)` through the
semantic strategy the fingerprint is indexed (conjunct 2) and the entry
is retrievable under its real key (conjunct 3); the query embedding
`[1]` has cosine similarity exactly 1 ≥ 0.85 with the indexed vector
(conjunct 1); yet the scan returns the empty list (conjunct 4). -/
theorem C6_manual_scan_drops_indexed_entries :
    cosineSimilarity [(1 : ℝ)] [(1 : ℝ)] = .ok 1 ∧
    idxMemberB (CMset cfgS envE (initState 0) "a" 7 optsN 0).state.kv
      "scira:cache:s:a" = true ∧
    entryDataAt (CMset cfgS envE (initState 0) "a" 7 optsN 0).state.kv
      "scira:cache:s:a" = some 7 ∧
    performManualSimilaritySearch
      (CMset cfgS envE (initState 0) "a" 7 optsN 0).state.kv
      (some [1]) (0.85 : ℝ) = .ok [] := by
  refine ⟨cos_one, by decide, by decide, ?_⟩
  have hkv : ((CMset cfgS envE (initState 0) "a" 7 optsN 0).state).kv
      = [("scira:cache:s:a",
            .entry ⟨7, 0, 60, ⟨"scira:cache:s:a", some [1], "a", "a", .semantic⟩, "s"⟩),
         ("scira_cache_embeddings:scira:cache:s:a",
            .idxRec ⟨"scira:cache:s:a", [1], "a", 0, 60, "s"⟩),
         ("scira_cache_embeddings:vectors:scira:cache:s:a",
            .vecRec [1] ⟨"scira:cache:s:a", [1], "a", 0, 60, "s"⟩),
         ("scira_cache_embeddings:keys", .sset ["scira:cache:s:a"])] := rfl
  have ha1 : "scira_cache_embeddings" ++ ":vectors:" ++ "scira:cache:s:a"
      = "scira_cache_embeddings:vectors:scira:cache:s:a" := rfl
  have ha2 : "scira:cache:" ++ "s" ++ ":" ++ "scira:cache:s:a"
      = "scira:cache:s:scira:cache:s:a" := rfl
  have h85 : (0.85 : ℝ) ≤ 1 := by norm_num
  rw [hkv]
  simp [performManualSimilaritySearch, scanLoop, smembersKV, kvGet, keysSetKey,
    indexName, cosineSimilarityJS, ha1, ha2, cos_one, h85]

/-- C10 witness: concrete semantic set with a failing index write,
followed by a successful get of the persisted entry. -/
theorem C10_set_not_atomic_witness :
    (CMset cfgS envI (initState 0) "a" 7 optsN 0).res = .error .setError ∧
    (CMset cfgS envI (initState 0) "a" 7 optsN 0).events = [⟨.error, "a", 0⟩] ∧
    kvGet (CMset cfgS envI (initState 0) "a" 7 optsN 0).state.kv
      (fpHash cfgS stratS "a")
      = some (.entry ⟨7, 0, 60, generateFingerprint cfgS envI stratS "a", "s"⟩) ∧
    (CMget cfgS envE (CMset cfgS envI (initState 0) "a" 7 optsN 0).state
      "a" optsN 1 1).res = .ok (some 7) :=
  C10_set_not_atomic cfgS envI envE (initState 0) "a" 7 optsN optsN 0 1 1
    stratS rfl rfl rfl rfl rfl rfl (by decide)

end SciraCache
